import Mathlib

/-!
The radvpn router: its routing table.

A shallow embedding of `router/router.go` (package `router`) and of the parts of
Go's `net` package and of `github.com/vishvananda/netlink` that it calls.

* A Go slice of bytes is a `List UInt8`; the `nil` slice of type `net.IP` is `none`.
* The `*net.IPNet` held by a route is a value (the pointer is not nil).
* `sync.Mutex` is left out: the runs modelled here are sequential, one call
  returns before the next one starts.
* The `*Routes` a `Router` owns is an address in a `Store` of tables; a method
  called through the pointer reads the table there and writes back the receiver
  the method leaves.
* The operating system is reached through `netlink` only.  One call of `Add` or
  `Delete` asks it at most two questions; the answers it gives are the
  `netlink.Kernel` argument of the call, and the requests issued are recorded,
  in order, in the result.
-/

set_option autoImplicit false

namespace net

/-- Go `net.IPv4len`. -/
def IPv4len : Nat := 4

/-- Go `net.IPv6len`. -/
def IPv6len : Nat := 16

/-- Go `net.IP`, a byte slice; `none` is the nil slice. -/
abbrev IP := Option (List UInt8)

/-- Go `net.IPMask`, a byte slice (only its length and bytes are read). -/
abbrev IPMask := List UInt8

/-- Go `net.IPNet`. -/
structure IPNet where
  IP : IP
  Mask : IPMask
  deriving DecidableEq, Repr

/-- The bytes of a slice, none for the nil slice. -/
def IP.bytes (ip : IP) : List UInt8 := ip.getD []

/-- Go `len(ip)`. -/
def IP.len (ip : IP) : Nat := (IP.bytes ip).length

/-- Go `net.v4InV6Prefix`. -/
def v4InV6Pfx : List UInt8 := [0, 0, 0, 0, 0, 0, 0, 0, 0, 0, 0xff, 0xff]

/-- Go `net.isZeros`. -/
def isZeros (p : List UInt8) : Bool := p.all (fun b => b == 0)

/-- Go `net.IP.To4`: the 4-byte form of an IPv4 address, nil otherwise. -/
def IP.To4 (ip : IP) : IP :=
  if IP.len ip = IPv4len then ip
  else if IP.len ip = IPv6len
      && isZeros ((IP.bytes ip).take 10)
      && (IP.bytes ip).getD 10 0 == 0xff
      && (IP.bytes ip).getD 11 0 == 0xff then
    some (((IP.bytes ip).drop 12).take 4)
  else none

/-- Go `net.IP.Equal`: equal bytes, an IPv4 address and its IPv6 form being equal. -/
def IP.Equal (ip x : IP) : Bool :=
  if IP.len ip = IP.len x then
    IP.bytes ip == IP.bytes x
  else if IP.len ip = IPv4len ∧ IP.len x = IPv6len then
    (IP.bytes x).take 12 == v4InV6Pfx && IP.bytes ip == (IP.bytes x).drop 12
  else if IP.len ip = IPv6len ∧ IP.len x = IPv4len then
    (IP.bytes ip).take 12 == v4InV6Pfx && (IP.bytes ip).drop 12 == IP.bytes x
  else false

/-- Go `net.networkNumberAndMask`; `none` stands for the result `(nil, nil)`. -/
def networkNumberAndMask (n : IPNet) : Option (List UInt8 × List UInt8) :=
  let ip4 := IP.To4 n.IP
  if ip4.isNone ∧ IP.len n.IP ≠ IPv6len then none
  else
    let ip := if ip4.isNone then IP.bytes n.IP else IP.bytes ip4
    if n.Mask.length = IPv4len then
      if ip.length ≠ IPv4len then none else some (ip, n.Mask)
    else if n.Mask.length = IPv6len then
      if ip.length = IPv4len then some (ip, n.Mask.drop 12) else some (ip, n.Mask)
    else none

/-- Go `net.IPNet.Contains`. -/
def IPNet.Contains (n : IPNet) (ip : net.IP) : Bool :=
  let nm := (networkNumberAndMask n).getD ([], [])
  let x := IP.To4 ip
  let ip := if x.isSome then IP.bytes x else IP.bytes ip
  if ip.length ≠ nm.1.length then false
  else (List.range ip.length).all fun i =>
    (nm.1.getD i 0 &&& nm.2.getD i 0) == (ip.getD i 0 &&& nm.2.getD i 0)

/-- One hexadecimal digit, lower case. -/
def hexDigit (d : Nat) : Char := "0123456789abcdef".toList.getD d '0'

/-- Go `net.uitoa`: decimal form of an unsigned integer. -/
def uitoa (v : Nat) : String := String.mk (Nat.toDigits 10 v)

/-- Go `appendHex`: hexadecimal form without leading zeros. -/
def appendHex (v : Nat) : String := String.mk (Nat.toDigits 16 v)

/-- Go `net.hexString`: two hexadecimal digits for each byte. -/
def hexString (b : List UInt8) : String :=
  String.mk (b.flatMap fun v => [hexDigit (v.toNat / 16), hexDigit (v.toNat % 16)])

/-- Number of leading one bits of a byte that is not 0xff, with the byte shifted past them. -/
def leadingOnes : Nat → UInt8 → Nat → Nat × UInt8
  | 0, v, n => (n, v)
  | fuel + 1, v, n => if v &&& 0x80 ≠ 0 then leadingOnes fuel (v <<< 1) (n + 1) else (n, v)

/-- Go `net.simpleMaskLength`; `none` stands for -1. -/
def simpleMaskLength : List UInt8 → Option Nat
  | [] => some 0
  | v :: rest =>
    if v = 0xff then (simpleMaskLength rest).map (fun n => n + 8)
    else
      let r := leadingOnes 8 v 0
      if r.2 ≠ 0 then none
      else if rest.all (fun b => b == 0) then some r.1 else none

/-- The eight 16-bit fields of a 16-byte address. -/
def fields : List UInt8 → List Nat
  | a :: b :: rest => (a.toNat * 256 + b.toNat) :: fields rest
  | _ => []

/-- Length of the run of zero fields at the head of a list. -/
def zeroRun : List Nat → Nat
  | 0 :: rest => zeroRun rest + 1
  | _ => 0

/-- The first longest run of two or more zero fields, as (start, end); (255, 255) when none. -/
def longestZeroRun (f : List Nat) : Nat × Nat :=
  (List.range 8).foldl
    (fun z i =>
      let l := zeroRun (f.drop i)
      if 2 ≤ l ∧ z.2 - z.1 < l then (i, i + l) else z)
    (255, 255)

/-- IPv6 text form of 16 bytes: the fields in hexadecimal, the longest zero run as "::". -/
def string16 (b : List UInt8) : String :=
  let f := fields b
  let z := longestZeroRun f
  String.join ((List.range 8).map fun i =>
    if z.1 ≤ i ∧ i < z.2 then (if i = z.1 then "::" else "")
    else (if 0 < i ∧ i ≠ z.2 then ":" else "") ++ appendHex (f.getD i 0))

/-- IPv4 text form of 4 bytes: dotted decimal. -/
def string4 (b : List UInt8) : String :=
  ".".intercalate (b.map fun v => uitoa v.toNat)

/-- Go `net.IP.String`. -/
def IP.String (ip : IP) : String :=
  if IP.len ip = 0 then "<nil>"
  else if IP.len ip ≠ IPv4len ∧ IP.len ip ≠ IPv6len then "?" ++ hexString (IP.bytes ip)
  else if IP.len (IP.To4 ip) = IPv4len then string4 (IP.bytes (IP.To4 ip))
  else string16 (IP.bytes ip)

/-- Go `net.IPMask.String`. -/
def IPMask.String (m : IPMask) : String :=
  if m.length = 0 then "<nil>" else hexString m

/-- Go `net.IPNet.String`: the CIDR form "address/length" of a network. -/
def IPNet.String (n : IPNet) : String :=
  match networkNumberAndMask n with
  | none => "<nil>"
  | some (nn, m) =>
    match simpleMaskLength m with
    | none => IP.String (some nn) ++ "/" ++ IPMask.String m
    | some l => IP.String (some nn) ++ "/" ++ uitoa l

/-- The text has neither a newline nor a space in it. -/
def plainText (s : String) : Prop := ∀ c ∈ s.data, c ≠ '\n' ∧ c ≠ ' '

instance (s : String) : Decidable (plainText s) := by
  unfold plainText; infer_instance

end net


namespace netlink

/-- The error value returned by a failed netlink request. -/
structure Error where
  msg : String
  deriving DecidableEq, Repr

/-- Go `netlink.Route`, with the two fields the router sets. -/
structure Route where
  Dst : net.IPNet
  LinkIndex : Int
  deriving DecidableEq, Repr

/-- A request made to the operating system through the netlink package. -/
inductive Call where
  | LinkByName (name : String)
  | RouteAdd (route : Route)
  | RouteDel (route : Route)
  deriving DecidableEq, Repr

/-- The request is an add-route request. -/
def Call.isRouteAdd : Call → Bool
  | .RouteAdd _ => true
  | _ => false

/-- The answers of the operating system during one call: `LinkByName` gives the
index of the named interface (`ifce.Attrs().Index`) or an error, `RouteAdd` and
`RouteDel` give an error or `none` for success. -/
structure Kernel where
  LinkByName : String → Except Error Int
  RouteAdd : Route → Option Error
  RouteDel : Route → Option Error

end netlink

namespace router

/-- The Go `error` values the routing table returns, one constructor for each
place that returns one: the two `fmt.Errorf` errors with their message, and the
errors of `netlink.LinkByName` and of `netlink.RouteAdd` / `netlink.RouteDel`,
which are returned as they are. -/
inductive Error where
  | DuplicateRoute (msg : String)
  | RouteNotFound (msg : String)
  | InterfaceNotFound (err : netlink.Error)
  | KernelSyncError (err : netlink.Error)
  deriving DecidableEq, Repr

/-- Go `router.NextHop`. -/
structure NextHop where
  IP : net.IP
  deriving DecidableEq, Repr

/-- Go `router.Route`. -/
structure Route where
  NextHop : NextHop
  NetworkID : net.IPNet
  deriving DecidableEq, Repr

/-- Go `router.Routes`: the table, in order. -/
structure Routes where
  table : List Route
  deriving DecidableEq, Repr

/-- What a call of `Add` or `Delete` leaves: the receiver after the call, the
netlink requests it issued, in order, and the error it returned (`none` is nil). -/
structure Result where
  routes : Routes
  calls : List netlink.Call
  err : Option Error

/-- Go `Routes.Add`: appends a new route to table and operating system. -/
def Routes.Add (r : Routes) (k : netlink.Kernel) (networkid : net.IPNet) (nexthop : net.IP) :
    Result :=
  -- check if route exist
  if r.table.any (fun route =>
      net.IP.Equal nexthop route.NextHop.IP
        && net.IPNet.String networkid == net.IPNet.String route.NetworkID) then
    { routes := r, calls := [],
      err := some (.DuplicateRoute
        ("route exist " ++ net.IPNet.String networkid ++ " " ++ net.IP.String nexthop)) }
  else
    let r1 : Routes := { table := r.table ++ [{ NextHop := { IP := nexthop }, NetworkID := networkid }] }
    -- add route to operating system
    match k.LinkByName "radvpn" with
    | .error err => { routes := r1, calls := [.LinkByName "radvpn"], err := some (.InterfaceNotFound err) }
    | .ok index =>
      let route : netlink.Route := { Dst := networkid, LinkIndex := index }
      match k.RouteAdd route with
      | some err =>
        { routes := r1, calls := [.LinkByName "radvpn", .RouteAdd route],
          err := some (.KernelSyncError err) }
      | none => { routes := r1, calls := [.LinkByName "radvpn", .RouteAdd route], err := none }

/-- The body of the loop of `Delete` once position `k` matches: the last entry
is copied over position `k` and the table is cut by one. -/
def swapRemove (table : List Route) (k : Nat) : List Route :=
  match table.getLast? with
  | some last => (table.set k last).dropLast
  | none => table

/-- The loop of `Delete` from position `k` on, `rest` being the entries not yet
visited: the table after the removal, or `none` when no entry matches. -/
def Delete.loop (table : List Route) (networkid : net.IPNet) (nexthop : net.IP) :
    List Route → Nat → Option (List Route)
  | [], _ => none
  | v :: rest, k =>
    if net.IPNet.String v.NetworkID == net.IPNet.String networkid
        && net.IP.Equal nexthop v.NextHop.IP then
      some (swapRemove table k)
    else Delete.loop table networkid nexthop rest (k + 1)

/-- Go `Routes.Delete`: removes a route from table and operating system. -/
def Routes.Delete (r : Routes) (k : netlink.Kernel) (networkid : net.IPNet) (nexthop : net.IP) :
    Result :=
  match Delete.loop r.table networkid nexthop r.table 0 with
  | none =>
    { routes := r, calls := [],
      err := some (.RouteNotFound
        ("can not delete route, not found " ++ net.IPNet.String networkid)) }
  | some table =>
    let r1 : Routes := { table := table }
    -- delete route from operating system
    match k.LinkByName "radvpn" with
    | .error err => { routes := r1, calls := [.LinkByName "radvpn"], err := some (.InterfaceNotFound err) }
    | .ok index =>
      let route : netlink.Route := { Dst := networkid, LinkIndex := index }
      match k.RouteDel route with
      | some err =>
        { routes := r1, calls := [.LinkByName "radvpn", .RouteDel route],
          err := some (.KernelSyncError err) }
      | none => { routes := r1, calls := [.LinkByName "radvpn", .RouteDel route], err := none }

/-- The loop of `Get` over the entries not yet visited. -/
def Get.loop (dst : net.IP) : List Route → net.IP
  | [] => none
  | route :: rest =>
    if net.IPNet.Contains route.NetworkID dst then route.NextHop.IP else Get.loop dst rest

/-- Go `Routes.Get`: returns nexthop for a specific dest, nil when no entry
contains it.  The result is the receiver after the call and the returned address. -/
def Routes.Get (r : Routes) (dst : net.IP) : Routes × net.IP :=
  (r, Get.loop dst r.table)

/-- Go `Routes.Dump`: prints out all routing table.  The result is the receiver
after the call and the lines written to standard output, one for each `fmt.Println`. -/
def Routes.Dump (r : Routes) : Routes × List String :=
  (r, "networkid\tnexthop\n" ::
    r.table.map fun route =>
      net.IPNet.String route.NetworkID ++ " " ++ net.IP.String route.NextHop.IP ++ "\n")

/-- Go `context.Context`, which no operation reads: a handle. -/
structure Context where
  id : Nat
  deriving DecidableEq, Repr

/-- A Go pointer `*Routes`: the address of a table in the store. -/
structure RoutesPtr where
  addr : Nat
  deriving DecidableEq, Repr

/-- The `Routes` values allocated so far, by address, and the next free address. -/
structure Store where
  cells : Nat → Routes
  next : Nat

/-- Go `*p`: the table a pointer refers to. -/
def Store.read (s : Store) (p : RoutesPtr) : Routes := s.cells p.addr

/-- The store after the table a pointer refers to has been assigned. -/
def Store.write (s : Store) (p : RoutesPtr) (r : Routes) : Store :=
  { cells := Function.update s.cells p.addr r, next := s.next }

/-- Go `new(Routes)`: a pointer to a fresh zero value, whose table is the nil slice. -/
def Store.alloc (s : Store) : Store × RoutesPtr :=
  ({ cells := Function.update s.cells s.next { table := [] }, next := s.next + 1 },
    { addr := s.next })

/-- Go `router.Router`. -/
structure Router where
  ctx : Context
  routes : RoutesPtr
  deriving DecidableEq, Repr

/-- Go `Router.Table`: returns the routing table, a pointer.  The result is the
store after the call and the returned pointer. -/
def Router.Table (r : Router) (s : Store) : Store × RoutesPtr := (s, r.routes)

/-- Go `router.New`: constructs a new router.  The result is the store after the
call and the router. -/
def New (ctx : Context) (s : Store) : Store × Router :=
  ((Store.alloc s).1, { ctx := ctx, routes := (Store.alloc s).2 })

/-- A call `p.Add(networkid, nexthop)` through a pointer: the store after the
call and what the call leaves. -/
def RoutesPtr.Add (p : RoutesPtr) (s : Store) (k : netlink.Kernel) (networkid : net.IPNet)
    (nexthop : net.IP) : Store × Result :=
  (s.write p ((s.read p).Add k networkid nexthop).routes, (s.read p).Add k networkid nexthop)

/-- A call `p.Delete(networkid, nexthop)` through a pointer. -/
def RoutesPtr.Delete (p : RoutesPtr) (s : Store) (k : netlink.Kernel) (networkid : net.IPNet)
    (nexthop : net.IP) : Store × Result :=
  (s.write p ((s.read p).Delete k networkid nexthop).routes,
    (s.read p).Delete k networkid nexthop)

/-- A call `p.Get(dst)` through a pointer: the store after the call and the returned address. -/
def RoutesPtr.Get (p : RoutesPtr) (s : Store) (dst : net.IP) : Store × net.IP :=
  (s.write p ((s.read p).Get dst).1, ((s.read p).Get dst).2)

/-- The table holds an entry for the pair: an entry with the same
destination-network string and an equal next-hop address. -/
def Routes.holds (r : Routes) (networkid : net.IPNet) (nexthop : net.IP) : Prop :=
  ∃ route ∈ r.table,
    net.IPNet.String route.NetworkID = net.IPNet.String networkid
      ∧ net.IP.Equal route.NextHop.IP nexthop = true

instance (r : Routes) (networkid : net.IPNet) (nexthop : net.IP) :
    Decidable (r.holds networkid nexthop) := by
  unfold Routes.holds; infer_instance

/-- Two routes differ as pairs: not both the same destination-network string
and equal next-hop addresses. -/
def Route.differs (a b : Route) : Prop :=
  ¬ (net.IPNet.String a.NetworkID = net.IPNet.String b.NetworkID
      ∧ net.IP.Equal a.NextHop.IP b.NextHop.IP = true)

/-- Invariant I1: no two entries at distinct positions have both the same
destination-network string and equal next-hop addresses. -/
def I1 (r : Routes) : Prop :=
  ∀ i j : Fin r.table.length, i ≠ j →
    ¬ (net.IPNet.String (r.table.get i).NetworkID = net.IPNet.String (r.table.get j).NetworkID
        ∧ net.IP.Equal (r.table.get i).NextHop.IP (r.table.get j).NextHop.IP = true)

instance (r : Routes) : Decidable (I1 r) := by
  unfold I1; infer_instance

/-- One call in a sequential run, with the answers the operating system gives during it. -/
inductive Op where
  | Add (k : netlink.Kernel) (networkid : net.IPNet) (nexthop : net.IP)
  | Delete (k : netlink.Kernel) (networkid : net.IPNet) (nexthop : net.IP)

/-- The table after one call of a run. -/
def Op.apply (r : Routes) : Op → Routes
  | .Add k networkid nexthop => (r.Add k networkid nexthop).routes
  | .Delete k networkid nexthop => (r.Delete k networkid nexthop).routes

/-- The table after a sequential run of calls, each returning before the next starts. -/
def run (r : Routes) (ops : List Op) : Routes := ops.foldl Op.apply r

/-- What one call of a run leaves. -/
def Op.result (r : Routes) : Op → Result
  | .Add k networkid nexthop => r.Add k networkid nexthop
  | .Delete k networkid nexthop => r.Delete k networkid nexthop

/-- No interface resolution and no kernel request of the call failed. -/
def Result.kernelOk (res : Result) : Bool :=
  match res.err with
  | some (.InterfaceNotFound _) => false
  | some (.KernelSyncError _) => false
  | _ => true

/-- Every interface resolution and every kernel request of the run succeeds. -/
def allSucceed : Routes → List Op → Bool
  | _, [] => true
  | r, op :: ops => (Op.result r op).kernelOk && allSucceed (Op.result r op).routes ops

/-- The destination network is in the kernel table for the designated
interface: the table lists a network with the same string form. -/
def kernelHas (K : List net.IPNet) (networkid : net.IPNet) : Prop :=
  ∃ M ∈ K, net.IPNet.String M = net.IPNet.String networkid

instance (K : List net.IPNet) (networkid : net.IPNet) : Decidable (kernelHas K networkid) := by
  unfold kernelHas; infer_instance

/-- The kernel table after one request that succeeds: an add-route request adds
its destination, a delete-route request removes it. -/
def kernelRequest (K : List net.IPNet) : netlink.Call → List net.IPNet
  | .LinkByName _ => K
  | .RouteAdd route => route.Dst :: K
  | .RouteDel route =>
    K.filter (fun M => net.IPNet.String M != net.IPNet.String route.Dst)

/-- The kernel table after a call: the requests the call issued take effect in
order, except the request the kernel refused (the last one, when the call
returns the error of the kernel). -/
def kernelAfter (K : List net.IPNet) (res : Result) : List net.IPNet :=
  match res.err with
  | some (.KernelSyncError _) => K
  | _ => res.calls.foldl kernelRequest K

/-- The in-memory table and the kernel table after a sequential run of calls. -/
def runSync : Routes × List net.IPNet → List Op → Routes × List net.IPNet
  | s, [] => s
  | s, op :: ops =>
    runSync ((Op.result s.1 op).routes, kernelAfter s.2 (Op.result s.1 op)) ops

/-- The destination network has an entry in the in-memory table: an entry with
the same destination-network string. -/
def Routes.hasEntry (r : Routes) (networkid : net.IPNet) : Prop :=
  ∃ route ∈ r.table, net.IPNet.String route.NetworkID = net.IPNet.String networkid

instance (r : Routes) (networkid : net.IPNet) : Decidable (r.hasEntry networkid) := by
  unfold Routes.hasEntry; infer_instance

/-- Invariant I2: a destination network has an entry in the in-memory table
exactly when it is in the kernel table. -/
def I2 (r : Routes) (K : List net.IPNet) : Prop :=
  ∀ networkid, r.hasEntry networkid ↔ kernelHas K networkid

/-- No `Add` of the run gives a second next hop to a destination network: each
`Add` either repeats a pair the table holds or is for a network without entry. -/
def singleHop : Routes → List Op → Bool
  | _, [] => true
  | r, .Add k networkid nexthop :: ops =>
    decide (r.hasEntry networkid → r.holds networkid nexthop)
      && singleHop (r.Add k networkid nexthop).routes ops
  | r, .Delete k networkid nexthop :: ops =>
    singleHop (r.Delete k networkid nexthop).routes ops

/-- No two entries of the table have the same destination-network string. -/
def Routes.singleNets (r : Routes) : Prop :=
  r.table.Pairwise fun a b => net.IPNet.String a.NetworkID ≠ net.IPNet.String b.NetworkID

/-- The answers of the operating system a call of the run is given. -/
def Op.kernel : Op → netlink.Kernel
  | .Add k _ _ => k
  | .Delete k _ _ => k

/-- The answers are ones netlink gives while the kernel table is `K`: an
add-route request for a destination that is in the table is refused (EEXIST). -/
def refusesDuplicates (K : List net.IPNet) (k : netlink.Kernel) : Prop :=
  ∀ route : netlink.Route, kernelHas K route.Dst → (k.RouteAdd route).isSome = true

/-- All along the run, from the in-memory table and the kernel table given, the
operating system answers as netlink does: each call is given answers that refuse
an add-route request for a destination in the kernel table of that moment. -/
def netlinkRun : Routes × List net.IPNet → List Op → Prop
  | _, [] => True
  | s, op :: ops =>
    refusesDuplicates s.2 (Op.kernel op)
      ∧ netlinkRun ((Op.result s.1 op).routes, kernelAfter s.2 (Op.result s.1 op)) ops

/-- The answers of netlink while the kernel table is `K`, when nothing else goes
wrong: the interface has the given index, an add-route request is refused for a
destination in the table (EEXIST) and a delete-route request for one that is
not (ESRCH). -/
def tableKernel (K : List net.IPNet) (index : Int) : netlink.Kernel :=
  { LinkByName := fun _ => .ok index,
    RouteAdd := fun route => if kernelHas K route.Dst then some ⟨"file exists"⟩ else none,
    RouteDel := fun route => if kernelHas K route.Dst then none else some ⟨"no such process"⟩ }

/-- An operating system in which the interface has the given index and every request succeeds. -/
def okKernel (index : Int) : netlink.Kernel :=
  { LinkByName := fun _ => .ok index, RouteAdd := fun _ => none, RouteDel := fun _ => none }

/-- An operating system in which no interface resolves. -/
def noLinkKernel : netlink.Kernel :=
  { LinkByName := fun name => .error ⟨"Link not found: " ++ name⟩,
    RouteAdd := fun _ => none, RouteDel := fun _ => none }

/-- An operating system in which the interface resolves and route requests are refused. -/
def refusingKernel (index : Int) : netlink.Kernel :=
  { LinkByName := fun _ => .ok index,
    RouteAdd := fun _ => some ⟨"operation not permitted"⟩,
    RouteDel := fun _ => some ⟨"operation not permitted"⟩ }

/-- The network 10.0.0.0/24. -/
def net10 : net.IPNet := { IP := some [10, 0, 0, 0], Mask := [255, 255, 255, 0] }

/-- The address 10.0.0.1. -/
def ip10_1 : net.IP := some [10, 0, 0, 1]

/-- The address 10.0.0.5. -/
def ip10_5 : net.IP := some [10, 0, 0, 5]

/-- The address 10.0.0.2. -/
def ip10_2 : net.IP := some [10, 0, 0, 2]

/-- The network 10.0.0.0/8. -/
def net10_8 : net.IPNet := { IP := some [10, 0, 0, 0], Mask := [255, 0, 0, 0] }

/-- The network 172.16.0.0/16. -/
def net172 : net.IPNet := { IP := some [172, 16, 0, 0], Mask := [255, 255, 0, 0] }

/-- A run with a kernel that accepts every request, also a second add-route
request for a destination it has: 10.0.0.0/24 is added via 10.0.0.1, added via
10.0.0.2, then deleted via 10.0.0.1. -/
def twoHopRun : List Op :=
  [.Add (okKernel 7) net10 ip10_1, .Add (okKernel 7) net10 ip10_2,
    .Delete (okKernel 7) net10 ip10_1]

/-- The run in which 10.0.0.0/24 is added via 10.0.0.1 and then via 10.0.0.2
while netlink answers from its table. -/
def secondHopRun : List Op :=
  [.Add (tableKernel [] 7) net10 ip10_1, .Add (tableKernel [net10] 7) net10 ip10_2]

/-- A store in which no table has been allocated. -/
def emptyStore : Store := { cells := fun _ => { table := [] }, next := 0 }

end router


/-! ## The `net` package -/

namespace net

theorem IP.Equal_refl (ip : IP) : IP.Equal ip ip = true := by
  simp [IP.Equal]

theorem IP.Equal_comm (a b : IP) : IP.Equal a b = IP.Equal b a := by
  unfold IP.Equal
  by_cases h : IP.len a = IP.len b
  · rw [if_pos h, if_pos h.symm]; exact BEq.comm
  · have h2 : ¬ IP.len b = IP.len a := fun e => h e.symm
    rw [if_neg h, if_neg h2]
    by_cases h3 : IP.len a = IPv4len ∧ IP.len b = IPv6len
    · have h4 : ¬ (IP.len b = IPv4len ∧ IP.len a = IPv6len) := by
        rintro ⟨_, e2⟩; rw [h3.1] at e2; simp [IPv4len, IPv6len] at e2
      rw [if_pos h3, if_neg h4, if_pos ⟨h3.2, h3.1⟩]
      congr 1; exact BEq.comm
    · rw [if_neg h3]
      by_cases h5 : IP.len a = IPv6len ∧ IP.len b = IPv4len
      · rw [if_pos h5, if_pos ⟨h5.2, h5.1⟩]
        congr 1; exact BEq.comm
      · rw [if_neg h5, if_neg (fun e => h5 ⟨e.2, e.1⟩), if_neg (fun e => h3 ⟨e.2, e.1⟩)]

/-- `Equal` reads only the bytes of its arguments. -/
theorem IP.Equal_congr_left (a b c : IP) (h : IP.bytes a = IP.bytes b) :
    IP.Equal a c = IP.Equal b c := by
  unfold IP.Equal IP.len
  rw [h]

/-- `Equal` is transitive. -/
theorem IP.Equal_trans (a b c : IP) (hab : IP.Equal a b = true) (hbc : IP.Equal b c = true) :
    IP.Equal a c = true := by
  by_cases h1 : IP.len a = IP.len b
  · have hb : IP.bytes a = IP.bytes b := by
      unfold IP.Equal at hab
      rw [if_pos h1] at hab
      simpa using hab
    rw [IP.Equal_congr_left a b c hb]
    exact hbc
  · by_cases h2 : IP.len b = IP.len c
    · have hb : IP.bytes b = IP.bytes c := by
        unfold IP.Equal at hbc
        rw [if_pos h2] at hbc
        simpa using hbc
      rw [IP.Equal_comm a c, IP.Equal_congr_left c b a hb.symm, IP.Equal_comm]
      exact hab
    · unfold IP.Equal at hab hbc ⊢
      rw [if_neg h1] at hab
      rw [if_neg h2] at hbc
      by_cases h3 : IP.len a = IPv4len ∧ IP.len b = IPv6len
      · rw [if_pos h3] at hab
        have h4 : ¬ (IP.len b = IPv4len ∧ IP.len c = IPv6len) := by
          rintro ⟨e, _⟩; rw [h3.2] at e; simp [IPv4len, IPv6len] at e
        rw [if_neg h4] at hbc
        by_cases h5 : IP.len b = IPv6len ∧ IP.len c = IPv4len
        · rw [if_pos h5] at hbc
          rw [if_pos (h3.1.trans h5.2.symm)]
          simp only [Bool.and_eq_true, beq_iff_eq] at hab hbc ⊢
          rw [hab.2, hbc.2]
        · rw [if_neg h5] at hbc
          cases hbc
      · rw [if_neg h3] at hab
        by_cases h6 : IP.len a = IPv6len ∧ IP.len b = IPv4len
        · rw [if_pos h6] at hab
          by_cases h7 : IP.len b = IPv4len ∧ IP.len c = IPv6len
          · rw [if_pos h7] at hbc
            rw [if_pos (h6.1.trans h7.2.symm)]
            simp only [Bool.and_eq_true, beq_iff_eq] at hab hbc ⊢
            rw [← List.take_append_drop 12 (IP.bytes a), ← List.take_append_drop 12 (IP.bytes c),
              hab.1, hab.2, hbc.1, ← hbc.2]
          · rw [if_neg h7] at hbc
            have h8 : ¬ (IP.len b = IPv6len ∧ IP.len c = IPv4len) := by
              rintro ⟨e, _⟩; rw [h6.2] at e; simp [IPv4len, IPv6len] at e
            rw [if_neg h8] at hbc
            cases hbc
        · rw [if_neg h6] at hab
          cases hab

/-- Two plain texts joined are a plain text. -/
theorem plainText_append {a b : String} (ha : plainText a) (hb : plainText b) :
    plainText (a ++ b) := by
  intro c hc
  rw [String.data_append, List.mem_append] at hc
  rcases hc with hc | hc
  · exact ha c hc
  · exact hb c hc

/-- A digit character is neither a newline nor a space. -/
theorem digitChar_plain (d : Nat) : Nat.digitChar d ≠ '\n' ∧ Nat.digitChar d ≠ ' ' := by
  by_cases h : d < 16
  · interval_cases d <;> decide
  · have hd : Nat.digitChar d = '*' := by
      unfold Nat.digitChar
      repeat (rw [if_neg (by omega)])
    rw [hd]
    decide

/-- The digits of a number are plain. -/
theorem toDigitsCore_plain (b : Nat) :
    ∀ (fuel n : Nat) (ds : List Char), (∀ c ∈ ds, c ≠ '\n' ∧ c ≠ ' ') →
      ∀ c ∈ Nat.toDigitsCore b fuel n ds, c ≠ '\n' ∧ c ≠ ' ' := by
  intro fuel
  induction fuel with
  | zero => intro n ds h; simpa [Nat.toDigitsCore] using h
  | succ fuel ih =>
    intro n ds h
    have hd : ∀ c ∈ Nat.digitChar (n % b) :: ds, c ≠ '\n' ∧ c ≠ ' ' := by
      intro c hc
      rcases List.mem_cons.1 hc with rfl | hc
      · exact digitChar_plain _
      · exact h c hc
    unfold Nat.toDigitsCore
    dsimp only
    split_ifs
    · exact hd
    · exact ih _ _ hd

/-- The decimal form of a number is plain. -/
theorem uitoa_plain (v : Nat) : plainText (uitoa v) :=
  toDigitsCore_plain 10 _ _ [] (by intro c hc; cases hc)

/-- The hexadecimal form of a number is plain. -/
theorem appendHex_plain (v : Nat) : plainText (appendHex v) :=
  toDigitsCore_plain 16 _ _ [] (by intro c hc; cases hc)

/-- A hexadecimal digit is neither a newline nor a space. -/
theorem hexDigit_plain (d : Nat) : hexDigit d ≠ '\n' ∧ hexDigit d ≠ ' ' := by
  unfold hexDigit
  by_cases h : d < 16
  · interval_cases d <;> decide
  · rw [List.getD_eq_default _ _ (by simpa using h)]
    decide

/-- The hexadecimal form of a byte slice is plain. -/
theorem hexString_plain (b : List UInt8) : plainText (hexString b) := by
  intro c hc
  simp only [hexString, List.mem_flatMap, List.mem_cons, List.mem_singleton,
    List.not_mem_nil, or_false] at hc
  obtain ⟨v, _, rfl | rfl⟩ := hc
  · exact hexDigit_plain _
  · exact hexDigit_plain _

/-- Plain texts joined by a plain separator are a plain text. -/
theorem intercalate_go_plain (sep : String) (hsep : plainText sep) :
    ∀ (l : List String) (acc : String), plainText acc → (∀ s ∈ l, plainText s) →
      plainText (String.intercalate.go acc sep l) := by
  intro l
  induction l with
  | nil => intro acc hacc _; exact hacc
  | cons a l ih =>
    intro acc hacc hl
    exact ih _ (plainText_append (plainText_append hacc hsep) (hl a (List.mem_cons_self _ _)))
      (fun s hs => hl s (List.mem_cons_of_mem _ hs))

/-- The dotted form of an IPv4 address is plain. -/
theorem string4_plain (b : List UInt8) : plainText (string4 b) := by
  unfold string4
  cases hb : b.map (fun v => uitoa v.toNat) with
  | nil => intro c hc; cases hc
  | cons a l =>
    have hall : ∀ s ∈ b.map (fun v => uitoa v.toNat), plainText s := by
      intro s hs
      obtain ⟨v, _, rfl⟩ := List.mem_map.1 hs
      exact uitoa_plain _
    rw [hb] at hall
    exact intercalate_go_plain "." (by decide) l a (hall a (List.mem_cons_self _ _))
      (fun s hs => hall s (List.mem_cons_of_mem _ hs))

/-- The text form of an IPv6 address is plain. -/
theorem string16_plain (b : List UInt8) : plainText (string16 b) := by
  intro c hc
  unfold string16 at hc
  rw [String.data_join] at hc
  simp only [List.mem_flatten, List.mem_map, exists_exists_and_eq_and] at hc
  obtain ⟨i, _, hci⟩ := hc
  revert hci
  split_ifs
  · intro hci; revert c; decide
  · intro hci; revert c; decide
  · exact plainText_append (by decide) (appendHex_plain _) c
  · exact plainText_append (by decide) (appendHex_plain _) c

/-- The text form of an address is plain. -/
theorem IP_String_plain (ip : IP) : plainText (IP.String ip) := by
  unfold IP.String
  split_ifs
  · decide
  · exact plainText_append (by decide) (hexString_plain _)
  · exact string4_plain _
  · exact string16_plain _

/-- The text form of a mask is plain. -/
theorem IPMask_String_plain (m : IPMask) : plainText (IPMask.String m) := by
  unfold IPMask.String
  split_ifs
  · decide
  · exact hexString_plain _

/-- The text form of a network is plain. -/
theorem IPNet_String_plain (n : IPNet) : plainText (IPNet.String n) := by
  unfold IPNet.String
  cases networkNumberAndMask n with
  | none => decide
  | some nm =>
    obtain ⟨nn, m⟩ := nm
    dsimp only
    cases simpleMaskLength m with
    | none =>
      exact plainText_append (plainText_append (IP_String_plain _) (by decide))
        (IPMask_String_plain m)
    | some l =>
      exact plainText_append (plainText_append (IP_String_plain _) (by decide)) (uitoa_plain l)

end net

/-! ## The routing table -/

namespace router

/-- The duplicate check of `Add` finds an entry exactly when the table holds the pair. -/
theorem Add_check_iff (r : Routes) (networkid : net.IPNet) (nexthop : net.IP) :
    r.table.any (fun route =>
      net.IP.Equal nexthop route.NextHop.IP
        && net.IPNet.String networkid == net.IPNet.String route.NetworkID) = true
      ↔ r.holds networkid nexthop := by
  simp only [List.any_eq_true, Bool.and_eq_true, beq_iff_eq, Routes.holds]
  constructor
  · rintro ⟨route, hm, he, hs⟩
    exact ⟨route, hm, hs.symm, by rw [net.IP.Equal_comm]; exact he⟩
  · rintro ⟨route, hm, hs, he⟩
    exact ⟨route, hm, by rw [net.IP.Equal_comm]; exact he, hs.symm⟩

/-- `Add` on a table that holds the pair. -/
theorem Add_of_holds (r : Routes) (k : netlink.Kernel) (networkid : net.IPNet) (nexthop : net.IP)
    (h : r.holds networkid nexthop) :
    r.Add k networkid nexthop =
      { routes := r, calls := [],
        err := some (.DuplicateRoute
          ("route exist " ++ net.IPNet.String networkid ++ " " ++ net.IP.String nexthop)) } := by
  unfold Routes.Add
  rw [if_pos ((Add_check_iff r networkid nexthop).2 h)]

/-- `Add` on a table that does not hold the pair: the route is appended, then
the interface is resolved and the kernel request issued. -/
theorem Add_of_not_holds (r : Routes) (k : netlink.Kernel) (networkid : net.IPNet)
    (nexthop : net.IP) (h : ¬ r.holds networkid nexthop) :
    r.Add k networkid nexthop =
      match k.LinkByName "radvpn" with
      | .error err =>
        { routes := ⟨r.table ++ [⟨⟨nexthop⟩, networkid⟩]⟩, calls := [.LinkByName "radvpn"],
          err := some (.InterfaceNotFound err) }
      | .ok index =>
        match k.RouteAdd ⟨networkid, index⟩ with
        | some err =>
          { routes := ⟨r.table ++ [⟨⟨nexthop⟩, networkid⟩]⟩,
            calls := [.LinkByName "radvpn", .RouteAdd ⟨networkid, index⟩],
            err := some (.KernelSyncError err) }
        | none =>
          { routes := ⟨r.table ++ [⟨⟨nexthop⟩, networkid⟩]⟩,
            calls := [.LinkByName "radvpn", .RouteAdd ⟨networkid, index⟩], err := none } := by
  unfold Routes.Add
  rw [if_neg (fun e => h ((Add_check_iff r networkid nexthop).1 e))]

/-- The table after `Add` on a table that does not hold the pair, whatever the kernel answers. -/
theorem Add_routes_of_not_holds (r : Routes) (k : netlink.Kernel) (networkid : net.IPNet)
    (nexthop : net.IP) (h : ¬ r.holds networkid nexthop) :
    (r.Add k networkid nexthop).routes = ⟨r.table ++ [⟨⟨nexthop⟩, networkid⟩]⟩ := by
  rw [Add_of_not_holds r k networkid nexthop h]
  cases k.LinkByName "radvpn" with
  | error err => rfl
  | ok index => dsimp only; cases k.RouteAdd ⟨networkid, index⟩ <;> rfl

/-- After the append the table holds the pair. -/
theorem holds_append_self (t : List Route) (networkid : net.IPNet) (nexthop : net.IP) :
    Routes.holds ⟨t ++ [⟨⟨nexthop⟩, networkid⟩]⟩ networkid nexthop :=
  ⟨⟨⟨nexthop⟩, networkid⟩, by simp, rfl, net.IP.Equal_refl nexthop⟩

/-- The loop of `Delete` finds nothing when no entry left to visit matches. -/
theorem Delete_loop_none (table : List Route) (networkid : net.IPNet) (nexthop : net.IP) :
    ∀ (rest : List Route) (k : Nat),
      (∀ v ∈ rest, ¬ (net.IPNet.String v.NetworkID = net.IPNet.String networkid
        ∧ net.IP.Equal v.NextHop.IP nexthop = true)) →
      Delete.loop table networkid nexthop rest k = none := by
  intro rest
  induction rest with
  | nil => intro k _; rfl
  | cons v rest ih =>
    intro k h
    have hv := h v (List.mem_cons_self _ _)
    rw [net.IP.Equal_comm] at hv
    unfold Delete.loop
    rw [if_neg (by simpa using hv)]
    exact ih (k + 1) (fun w hw => h w (List.mem_cons_of_mem _ hw))

/-- The loop of `Delete` removes at the first matching position. -/
theorem Delete_loop_some (table : List Route) (networkid : net.IPNet) (nexthop : net.IP) :
    ∀ (pre : List Route) (v : Route) (post : List Route) (k : Nat),
      (∀ w ∈ pre, ¬ (net.IPNet.String w.NetworkID = net.IPNet.String networkid
        ∧ net.IP.Equal w.NextHop.IP nexthop = true)) →
      net.IPNet.String v.NetworkID = net.IPNet.String networkid →
      net.IP.Equal v.NextHop.IP nexthop = true →
      Delete.loop table networkid nexthop (pre ++ v :: post) k
        = some (swapRemove table (k + pre.length)) := by
  intro pre
  induction pre with
  | nil =>
    intro v post k _ hs he
    rw [net.IP.Equal_comm] at he
    simp [Delete.loop, hs, he]
  | cons w pre ih =>
    intro v post k h hs he
    have hw := h w (List.mem_cons_self _ _)
    rw [net.IP.Equal_comm] at hw
    rw [List.cons_append]
    unfold Delete.loop
    rw [if_neg (by simpa using hw),
      ih v post (k + 1) (fun x hx => h x (List.mem_cons_of_mem _ hx)) hs he]
    simp only [List.length_cons]
    congr 2
    omega

/-- `Delete` on a table that does not hold the pair. -/
theorem Delete_of_not_holds (r : Routes) (k : netlink.Kernel) (networkid : net.IPNet)
    (nexthop : net.IP) (h : ¬ r.holds networkid nexthop) :
    r.Delete k networkid nexthop =
      { routes := r, calls := [],
        err := some (.RouteNotFound
          ("can not delete route, not found " ++ net.IPNet.String networkid)) } := by
  unfold Routes.Delete
  rw [Delete_loop_none r.table networkid nexthop r.table 0
    (fun v hv hm => h ⟨v, hv, hm.1, hm.2⟩)]

/-- The loop of `Get` returns the next hop of the first entry containing the address. -/
theorem Get_loop_first (dst : net.IP) (pre : List Route) (route : Route) (post : List Route)
    (hpre : ∀ x ∈ pre, net.IPNet.Contains x.NetworkID dst = false)
    (hc : net.IPNet.Contains route.NetworkID dst = true) :
    Get.loop dst (pre ++ route :: post) = route.NextHop.IP := by
  induction pre with
  | nil => simp [Get.loop, hc]
  | cons x pre ih =>
    rw [List.cons_append]
    unfold Get.loop
    rw [hpre x (List.mem_cons_self _ _)]
    exact ih (fun y hy => hpre y (List.mem_cons_of_mem _ hy))

/-- The loop of `Get` returns nil when no entry contains the address. -/
theorem Get_loop_none (dst : net.IP) (t : List Route)
    (h : ∀ x ∈ t, net.IPNet.Contains x.NetworkID dst = false) :
    Get.loop dst t = none := by
  induction t with
  | nil => rfl
  | cons x t ih =>
    unfold Get.loop
    rw [h x (List.mem_cons_self _ _)]
    exact ih (fun y hy => h y (List.mem_cons_of_mem _ hy))

/-- The last position removed by swap-with-last: a plain truncation. -/
theorem swapRemove_last (pre : List Route) (v : Route) :
    swapRemove (pre ++ [v]) pre.length = pre := by
  simp [swapRemove]

/-- An inner position removed by swap-with-last: the last entry takes its place. -/
theorem swapRemove_inner (pre : List Route) (v : Route) (mid : List Route) (l : Route) :
    swapRemove (pre ++ v :: (mid ++ [l])) pre.length = pre ++ l :: mid := by
  have h1 : (pre ++ v :: (mid ++ [l])).getLast? = some l := by
    rw [show pre ++ v :: (mid ++ [l]) = (pre ++ v :: mid) ++ [l] by simp]
    exact List.getLast?_concat _
  unfold swapRemove
  rw [h1]
  dsimp only
  rw [List.set_append_right _ _ (le_refl _)]
  simp only [Nat.sub_self, List.set_cons_zero]
  rw [show pre ++ l :: (mid ++ [l]) = (pre ++ l :: mid) ++ [l] by simp]
  exact List.dropLast_concat

/-- The table a successful removal leaves has one entry fewer. -/
theorem swapRemove_length (pre : List Route) (v : Route) (post : List Route) :
    (swapRemove (pre ++ v :: post) pre.length).length + 1 = (pre ++ v :: post).length := by
  rcases List.eq_nil_or_concat post with rfl | ⟨mid, l, rfl⟩
  · rw [swapRemove_last]; simp
  · rw [List.concat_eq_append, swapRemove_inner]; simp; omega

/-- A table that holds the pair splits at the first matching entry. -/
theorem holds_first (networkid : net.IPNet) (nexthop : net.IP) :
    ∀ t : List Route, Routes.holds ⟨t⟩ networkid nexthop →
      ∃ pre v post, t = pre ++ v :: post
        ∧ (∀ w ∈ pre, ¬ (net.IPNet.String w.NetworkID = net.IPNet.String networkid
            ∧ net.IP.Equal w.NextHop.IP nexthop = true))
        ∧ net.IPNet.String v.NetworkID = net.IPNet.String networkid
        ∧ net.IP.Equal v.NextHop.IP nexthop = true := by
  intro t
  induction t with
  | nil => rintro ⟨x, hx, _⟩; cases hx
  | cons a t ih =>
    intro h
    by_cases ha : net.IPNet.String a.NetworkID = net.IPNet.String networkid
        ∧ net.IP.Equal a.NextHop.IP nexthop = true
    · exact ⟨[], a, t, rfl, by simp, ha.1, ha.2⟩
    · have ht : Routes.holds ⟨t⟩ networkid nexthop := by
        obtain ⟨x, hx, hm⟩ := h
        rcases List.mem_cons.1 hx with rfl | hx
        · exact absurd hm ha
        · exact ⟨x, hx, hm⟩
      obtain ⟨pre, v, post, rfl, hpre, hs, he⟩ := ih ht
      refine ⟨a :: pre, v, post, rfl, ?_, hs, he⟩
      intro w hw
      rcases List.mem_cons.1 hw with rfl | hw
      · exact ha
      · exact hpre w hw

/-- `Delete` on a table whose first matching entry is at position `pre.length`:
the entry is removed by swap-with-last, then the interface is resolved and the
kernel request issued. -/
theorem Delete_of_first (r : Routes) (k : netlink.Kernel) (networkid : net.IPNet)
    (nexthop : net.IP) (pre : List Route) (v : Route) (post : List Route)
    (ht : r.table = pre ++ v :: post)
    (hpre : ∀ w ∈ pre, ¬ (net.IPNet.String w.NetworkID = net.IPNet.String networkid
        ∧ net.IP.Equal w.NextHop.IP nexthop = true))
    (hs : net.IPNet.String v.NetworkID = net.IPNet.String networkid)
    (he : net.IP.Equal v.NextHop.IP nexthop = true) :
    r.Delete k networkid nexthop =
      match k.LinkByName "radvpn" with
      | .error err =>
        { routes := ⟨swapRemove r.table pre.length⟩, calls := [.LinkByName "radvpn"],
          err := some (.InterfaceNotFound err) }
      | .ok index =>
        match k.RouteDel ⟨networkid, index⟩ with
        | some err =>
          { routes := ⟨swapRemove r.table pre.length⟩,
            calls := [.LinkByName "radvpn", .RouteDel ⟨networkid, index⟩],
            err := some (.KernelSyncError err) }
        | none =>
          { routes := ⟨swapRemove r.table pre.length⟩,
            calls := [.LinkByName "radvpn", .RouteDel ⟨networkid, index⟩], err := none } := by
  have hl : Delete.loop r.table networkid nexthop r.table 0
      = some (swapRemove r.table pre.length) := by
    conv_lhs => rw [ht]
    rw [Delete_loop_some (pre ++ v :: post) networkid nexthop pre v post 0 hpre hs he, ← ht]
    simp
  unfold Routes.Delete
  rw [hl]

/-- The table after `Delete` on a table whose first matching entry is at
position `pre.length`, whatever the kernel answers. -/
theorem Delete_routes_of_first (r : Routes) (k : netlink.Kernel) (networkid : net.IPNet)
    (nexthop : net.IP) (pre : List Route) (v : Route) (post : List Route)
    (ht : r.table = pre ++ v :: post)
    (hpre : ∀ w ∈ pre, ¬ (net.IPNet.String w.NetworkID = net.IPNet.String networkid
        ∧ net.IP.Equal w.NextHop.IP nexthop = true))
    (hs : net.IPNet.String v.NetworkID = net.IPNet.String networkid)
    (he : net.IP.Equal v.NextHop.IP nexthop = true) :
    (r.Delete k networkid nexthop).routes = ⟨swapRemove r.table pre.length⟩ := by
  rw [Delete_of_first r k networkid nexthop pre v post ht hpre hs he]
  cases k.LinkByName "radvpn" with
  | error err => rfl
  | ok index => dsimp only; cases k.RouteDel ⟨networkid, index⟩ <;> rfl

/-- `Add` of a pair the table does not hold, then `Delete` of the same pair:
the table is the one before the `Add`. -/
theorem Delete_Add_routes (r : Routes) (k1 k2 : netlink.Kernel) (networkid : net.IPNet)
    (nexthop : net.IP) (h : ¬ r.holds networkid nexthop) :
    ((r.Add k1 networkid nexthop).routes.Delete k2 networkid nexthop).routes = r := by
  rw [Add_routes_of_not_holds r k1 networkid nexthop h]
  rw [Delete_routes_of_first _ k2 networkid nexthop r.table ⟨⟨nexthop⟩, networkid⟩ [] rfl
    (fun w hw hm => h ⟨w, hw, hm.1, hm.2⟩) rfl (net.IP.Equal_refl nexthop)]
  show Routes.mk (swapRemove (r.table ++ [⟨⟨nexthop⟩, networkid⟩]) r.table.length) = r
  rw [swapRemove_last]

/-- Differing as pairs is symmetric. -/
theorem Route.differs_symm {a b : Route} (h : a.differs b) : b.differs a := by
  intro hm
  exact h ⟨hm.1.symm, by rw [net.IP.Equal_comm]; exact hm.2⟩

/-- Invariant I1 says that the entries differ pairwise. -/
theorem I1_iff_pairwise (r : Routes) : I1 r ↔ r.table.Pairwise Route.differs := by
  rw [List.pairwise_iff_get]
  constructor
  · intro h i j hij
    exact h i j (ne_of_lt hij)
  · intro h i j hne
    rcases lt_or_gt_of_ne hne with hlt | hgt
    · exact h i j hlt
    · exact Route.differs_symm (h j i hgt)

/-- Swap-with-last at the first position of `v` keeps the entries pairwise different. -/
theorem swapRemove_pairwise (pre : List Route) (v : Route) (post : List Route)
    (h : (pre ++ v :: post).Pairwise Route.differs) :
    (swapRemove (pre ++ v :: post) pre.length).Pairwise Route.differs := by
  rcases List.eq_nil_or_concat post with rfl | ⟨mid, l, rfl⟩
  · rw [swapRemove_last]
    exact h.sublist (List.sublist_append_left pre [v])
  · rw [List.concat_eq_append, swapRemove_inner]
    rw [List.concat_eq_append] at h
    have hsub : (pre ++ (mid ++ [l])).Pairwise Route.differs :=
      h.sublist (List.Sublist.append_left (List.sublist_cons_self v _) pre)
    have hperm : (pre ++ (mid ++ [l])).Perm (pre ++ l :: mid) :=
      List.Perm.append_left pre (List.perm_append_singleton l mid)
    exact (hperm.pairwise_iff (fun hxy => Route.differs_symm hxy)).1 hsub

/-- `Add` preserves invariant I1. -/
theorem I1_Add (r : Routes) (k : netlink.Kernel) (networkid : net.IPNet) (nexthop : net.IP)
    (h : I1 r) : I1 (r.Add k networkid nexthop).routes := by
  by_cases hh : r.holds networkid nexthop
  · rw [Add_of_holds r k networkid nexthop hh]; exact h
  · rw [Add_routes_of_not_holds r k networkid nexthop hh, I1_iff_pairwise]
    rw [I1_iff_pairwise] at h
    refine List.pairwise_append.2 ⟨h, List.pairwise_singleton _ _, ?_⟩
    intro a ha b hb hm
    rw [List.mem_singleton] at hb
    subst hb
    exact hh ⟨a, ha, hm.1, hm.2⟩

/-- `Delete` preserves invariant I1. -/
theorem I1_Delete (r : Routes) (k : netlink.Kernel) (networkid : net.IPNet) (nexthop : net.IP)
    (h : I1 r) : I1 (r.Delete k networkid nexthop).routes := by
  by_cases hh : r.holds networkid nexthop
  · obtain ⟨pre, v, post, ht, hpre, hs, he⟩ := holds_first networkid nexthop r.table hh
    rw [Delete_routes_of_first r k networkid nexthop pre v post ht hpre hs he, I1_iff_pairwise]
    rw [I1_iff_pairwise, ht] at h
    show (swapRemove r.table pre.length).Pairwise Route.differs
    rw [ht]
    exact swapRemove_pairwise pre v post h
  · rw [Delete_of_not_holds r k networkid nexthop hh]; exact h

/-- A sequential run of calls preserves invariant I1. -/
theorem I1_run (ops : List Op) : ∀ r : Routes, I1 r → I1 (run r ops) := by
  induction ops with
  | nil => intro r h; exact h
  | cons op ops ih =>
    intro r h
    show I1 (run (Op.apply r op) ops)
    apply ih
    cases op with
    | Add k networkid nexthop => exact I1_Add r k networkid nexthop h
    | Delete k networkid nexthop => exact I1_Delete r k networkid nexthop h

/-! ## The claims -/

/-- C1: after an `Add(N, H)` that succeeds, a second `Add(N, H)` with the same pair
returns the DuplicateRoute error and the table has as many entries as before the
second call; starting from the empty table, the table then has exactly one entry. -/
theorem C1_second_add_duplicate (r : Routes) (k1 k2 : netlink.Kernel) (N : net.IPNet)
    (H : net.IP) (h : (r.Add k1 N H).err = none) :
    ((r.Add k1 N H).routes.Add k2 N H).err
        = some (.DuplicateRoute
            ("route exist " ++ net.IPNet.String N ++ " " ++ net.IP.String H))
      ∧ ((r.Add k1 N H).routes.Add k2 N H).routes.table.length
          = (r.Add k1 N H).routes.table.length
      ∧ (r.table = [] → ((r.Add k1 N H).routes.Add k2 N H).routes.table.length = 1) := by
  have hn : ¬ r.holds N H := by
    intro hh
    rw [Add_of_holds r k1 N H hh] at h
    exact Option.noConfusion h
  have h1 := Add_routes_of_not_holds r k1 N H hn
  have h2 := Add_of_holds _ k2 N H (holds_append_self r.table N H)
  rw [h1, h2]
  refine ⟨rfl, rfl, ?_⟩
  intro he
  simp [he]

/-- C1 at the empty table, 10.0.0.0/24 via 10.0.0.1, with every kernel request succeeding. -/
theorem C1_second_add_duplicate_witness :
    (Routes.Add ⟨[]⟩ (okKernel 7) net10 ip10_1).err = none
      ∧ ((Routes.Add ⟨[]⟩ (okKernel 7) net10 ip10_1).routes.Add noLinkKernel net10 ip10_1).err
          = some (.DuplicateRoute "route exist 10.0.0.0/24 10.0.0.1")
      ∧ ((Routes.Add ⟨[]⟩ (okKernel 7) net10 ip10_1).routes.Add
          noLinkKernel net10 ip10_1).routes.table.length = 1 :=
  have h := C1_second_add_duplicate ⟨[]⟩ (okKernel 7) noLinkKernel net10 ip10_1 (by decide)
  ⟨by decide, h.1.trans (by decide), h.2.2 rfl⟩

/-- C2: on a table that holds an entry with the same destination-network string
and an equal next hop, `Add(N, H)` returns the DuplicateRoute error, leaves the
table as it was and issues no netlink request at all, whatever the operating
system would have answered. -/
theorem C2_add_duplicate_changes_nothing (r : Routes) (k : netlink.Kernel) (N : net.IPNet)
    (H : net.IP) (h : r.holds N H) :
    (r.Add k N H).err
        = some (.DuplicateRoute
            ("route exist " ++ net.IPNet.String N ++ " " ++ net.IP.String H))
      ∧ (r.Add k N H).routes = r
      ∧ (r.Add k N H).calls = [] := by
  rw [Add_of_holds r k N H h]
  exact ⟨rfl, rfl, rfl⟩

/-- C2 on the table [10.0.0.0/24 via 10.0.0.1], the next hop given in its 16-byte
form, with an operating system in which the interface does not resolve. -/
theorem C2_add_duplicate_changes_nothing_witness :
    Routes.holds ⟨[⟨⟨ip10_1⟩, net10⟩]⟩ net10 (some [0, 0, 0, 0, 0, 0, 0, 0, 0, 0, 255, 255, 10, 0, 0, 1])
      ∧ (Routes.Add ⟨[⟨⟨ip10_1⟩, net10⟩]⟩ noLinkKernel net10
          (some [0, 0, 0, 0, 0, 0, 0, 0, 0, 0, 255, 255, 10, 0, 0, 1])).err
          = some (.DuplicateRoute "route exist 10.0.0.0/24 10.0.0.1")
      ∧ (Routes.Add ⟨[⟨⟨ip10_1⟩, net10⟩]⟩ noLinkKernel net10
          (some [0, 0, 0, 0, 0, 0, 0, 0, 0, 0, 255, 255, 10, 0, 0, 1])).routes
          = ⟨[⟨⟨ip10_1⟩, net10⟩]⟩
      ∧ (Routes.Add ⟨[⟨⟨ip10_1⟩, net10⟩]⟩ noLinkKernel net10
          (some [0, 0, 0, 0, 0, 0, 0, 0, 0, 0, 255, 255, 10, 0, 0, 1])).calls = [] :=
  have h := C2_add_duplicate_changes_nothing ⟨[⟨⟨ip10_1⟩, net10⟩]⟩ noLinkKernel net10
    (some [0, 0, 0, 0, 0, 0, 0, 0, 0, 0, 255, 255, 10, 0, 0, 1]) (by decide)
  ⟨by decide, h.1.trans (by decide), h.2.1, h.2.2⟩

/-- C3: on a table (the empty one included) that holds no entry matching (N, H)
in both destination-network string and next hop, `Delete(N, H)` returns the
RouteNotFound error, leaves the table exactly as it was and issues no netlink
request: no interface resolution and no delete-route request. -/
theorem C3_delete_absent_changes_nothing (r : Routes) (k : netlink.Kernel) (N : net.IPNet)
    (H : net.IP) (h : ¬ r.holds N H) :
    (r.Delete k N H).err
        = some (.RouteNotFound ("can not delete route, not found " ++ net.IPNet.String N))
      ∧ (r.Delete k N H).routes = r
      ∧ (r.Delete k N H).calls = [] := by
  rw [Delete_of_not_holds r k N H h]
  exact ⟨rfl, rfl, rfl⟩

/-- C3 on the empty table: deleting 10.0.0.0/24 via 10.0.0.1 fails with RouteNotFound. -/
theorem C3_delete_absent_changes_nothing_witness :
    ¬ Routes.holds ⟨[]⟩ net10 ip10_1
      ∧ (Routes.Delete ⟨[]⟩ (okKernel 7) net10 ip10_1).err
          = some (.RouteNotFound "can not delete route, not found 10.0.0.0/24")
      ∧ (Routes.Delete ⟨[]⟩ (okKernel 7) net10 ip10_1).routes = ⟨[]⟩
      ∧ (Routes.Delete ⟨[]⟩ (okKernel 7) net10 ip10_1).calls = [] :=
  have h := C3_delete_absent_changes_nothing ⟨[]⟩ (okKernel 7) net10 ip10_1 (by decide)
  ⟨by decide, h.1.trans (by decide), h.2.1, h.2.2⟩

/-- C4: `Get(A)` returns the next hop of the first entry, in table order, whose
network contains A, and nil when no entry's network contains A; of two entries
that both contain A the earlier one wins, whatever the masks, in particular the
one added earlier by `Add`; and `Get` leaves the table unchanged. -/
theorem C4_get_first_match (r : Routes) (A : net.IP) :
    (∀ pre route post, r.table = pre ++ route :: post →
        (∀ x ∈ pre, net.IPNet.Contains x.NetworkID A = false) →
        net.IPNet.Contains route.NetworkID A = true →
        (r.Get A).2 = route.NextHop.IP)
      ∧ ((∀ x ∈ r.table, net.IPNet.Contains x.NetworkID A = false) → (r.Get A).2 = none)
      ∧ (∀ pre e1 mid e2 post, r.table = pre ++ e1 :: (mid ++ e2 :: post) →
          (∀ x ∈ pre, net.IPNet.Contains x.NetworkID A = false) →
          net.IPNet.Contains e1.NetworkID A = true →
          net.IPNet.Contains e2.NetworkID A = true →
          (r.Get A).2 = e1.NextHop.IP)
      ∧ (∀ k1 k2 N1 H1 N2 H2,
          (∀ x ∈ r.table, net.IPNet.Contains x.NetworkID A = false) →
          ¬ r.holds N1 H1 → ¬ (r.Add k1 N1 H1).routes.holds N2 H2 →
          net.IPNet.Contains N1 A = true → net.IPNet.Contains N2 A = true →
          (((r.Add k1 N1 H1).routes.Add k2 N2 H2).routes.Get A).2 = H1)
      ∧ (r.Get A).1 = r := by
  refine ⟨?_, ?_, ?_, ?_, rfl⟩
  · intro pre route post ht hpre hc
    show Get.loop A r.table = _
    rw [ht]
    exact Get_loop_first A pre route post hpre hc
  · intro h
    exact Get_loop_none A r.table h
  · intro pre e1 mid e2 post ht hpre hc _
    show Get.loop A r.table = _
    rw [ht]
    exact Get_loop_first A pre e1 _ hpre hc
  · intro k1 k2 N1 H1 N2 H2 hr h1 h2 hc1 _
    rw [Add_routes_of_not_holds _ k2 N2 H2 h2]
    rw [Add_routes_of_not_holds r k1 N1 H1 h1]
    show Get.loop A ((r.table ++ [⟨⟨H1⟩, N1⟩]) ++ [⟨⟨H2⟩, N2⟩]) = H1
    rw [List.append_assoc]
    exact Get_loop_first A r.table ⟨⟨H1⟩, N1⟩ _ hr hc1

/-- C5: when `Add(N, H)` passes the duplicate check, `Add(N, H)` followed by
`Delete(N, H)` returns the table to its size before the `Add`, and every address
A inside N that resolved to H after the `Add` and that no other entry's network
contains is not found by `Get` after the `Delete`. -/
theorem C5_add_delete_round_trip (r : Routes) (k1 k2 : netlink.Kernel) (N : net.IPNet)
    (H : net.IP) (h : ¬ r.holds N H) :
    ((r.Add k1 N H).routes.Delete k2 N H).routes.table.length = r.table.length
      ∧ ∀ A, net.IPNet.Contains N A = true →
          ((r.Add k1 N H).routes.Get A).2 = H →
          (∀ x ∈ r.table, net.IPNet.Contains x.NetworkID A = false) →
          (((r.Add k1 N H).routes.Delete k2 N H).routes.Get A).2 = none := by
  rw [Delete_Add_routes r k1 k2 N H h]
  refine ⟨rfl, ?_⟩
  intro A _ _ hno
  exact Get_loop_none A r.table hno

/-- C5 on the table [192.168.0.0/24 via 10.0.0.1], adding and deleting
10.0.0.0/24 via 10.0.0.1 while route requests are refused by the kernel. -/
theorem C5_add_delete_round_trip_witness :
    ¬ Routes.holds ⟨[⟨⟨ip10_1⟩, ⟨some [192, 168, 0, 0], [255, 255, 255, 0]⟩⟩]⟩ net10 ip10_1
      ∧ ((Routes.Add ⟨[⟨⟨ip10_1⟩, ⟨some [192, 168, 0, 0], [255, 255, 255, 0]⟩⟩]⟩
            (refusingKernel 7) net10 ip10_1).routes.Delete
              (refusingKernel 7) net10 ip10_1).routes.table.length = 1
      ∧ ((Routes.Add ⟨[⟨⟨ip10_1⟩, ⟨some [192, 168, 0, 0], [255, 255, 255, 0]⟩⟩]⟩
            (refusingKernel 7) net10 ip10_1).routes.Get ip10_5).2 = ip10_1
      ∧ (((Routes.Add ⟨[⟨⟨ip10_1⟩, ⟨some [192, 168, 0, 0], [255, 255, 255, 0]⟩⟩]⟩
            (refusingKernel 7) net10 ip10_1).routes.Delete
              (refusingKernel 7) net10 ip10_1).routes.Get ip10_5).2 = none :=
  have h := C5_add_delete_round_trip
    ⟨[⟨⟨ip10_1⟩, ⟨some [192, 168, 0, 0], [255, 255, 255, 0]⟩⟩]⟩
    (refusingKernel 7) (refusingKernel 7) net10 ip10_1 (by decide)
  ⟨by decide, h.1, by decide, h.2 ip10_5 (by decide) (by decide) (by decide)⟩

/-- C6: for a pair the table does not hold, when the interface cannot be
resolved `Add` returns the InterfaceNotFound error (and has issued no add-route
request), when the interface resolves and the add-route request fails `Add`
returns the KernelSyncError; in both cases, as for every answer of the kernel,
the table is the old sequence with the route (N, H) appended last, so that a
following `Get` of an address in N that no earlier entry covers gives H and a
following `Add(N, H)` fails with DuplicateRoute. -/
theorem C6_add_failure_keeps_entry (r : Routes) (k : netlink.Kernel) (N : net.IPNet)
    (H : net.IP) (h : ¬ r.holds N H) :
    (∀ e, k.LinkByName "radvpn" = .error e →
        (r.Add k N H).err = some (.InterfaceNotFound e)
          ∧ (r.Add k N H).calls = [.LinkByName "radvpn"]
          ∧ (r.Add k N H).routes.table = r.table ++ [⟨⟨H⟩, N⟩])
      ∧ (∀ index e, k.LinkByName "radvpn" = .ok index → k.RouteAdd ⟨N, index⟩ = some e →
          (r.Add k N H).err = some (.KernelSyncError e)
            ∧ (r.Add k N H).routes.table = r.table ++ [⟨⟨H⟩, N⟩])
      ∧ (r.Add k N H).routes.table = r.table ++ [⟨⟨H⟩, N⟩]
      ∧ (∀ A, net.IPNet.Contains N A = true →
          (∀ x ∈ r.table, net.IPNet.Contains x.NetworkID A = false) →
          ((r.Add k N H).routes.Get A).2 = H)
      ∧ (∀ k2, ((r.Add k N H).routes.Add k2 N H).err
          = some (.DuplicateRoute
              ("route exist " ++ net.IPNet.String N ++ " " ++ net.IP.String H))
          ∧ ((r.Add k N H).routes.Add k2 N H).routes = (r.Add k N H).routes) := by
  have hr := Add_routes_of_not_holds r k N H h
  have ha := Add_of_not_holds r k N H h
  refine ⟨?_, ?_, ?_, ?_, ?_⟩
  · intro e he
    rw [he] at ha
    rw [ha]
    exact ⟨rfl, rfl, rfl⟩
  · intro index e hl he
    rw [hl] at ha
    dsimp only at ha
    rw [he] at ha
    rw [ha]
    exact ⟨rfl, rfl⟩
  · rw [hr]
  · intro A hc hno
    rw [hr]
    exact Get_loop_first A r.table ⟨⟨H⟩, N⟩ [] hno hc
  · intro k2
    rw [hr, Add_of_holds _ k2 N H (holds_append_self r.table N H)]
    exact ⟨rfl, rfl⟩

/-- C6 on the empty table while the interface does not resolve: the error is the
one of the resolution, 10.0.0.5 resolves to 10.0.0.1 all the same and the same
`Add` again is a duplicate. -/
theorem C6_add_failure_keeps_entry_witness :
    ¬ Routes.holds ⟨[]⟩ net10 ip10_1
      ∧ (Routes.Add ⟨[]⟩ noLinkKernel net10 ip10_1).err
          = some (.InterfaceNotFound ⟨"Link not found: radvpn"⟩)
      ∧ (Routes.Add ⟨[]⟩ noLinkKernel net10 ip10_1).routes.table = [⟨⟨ip10_1⟩, net10⟩]
      ∧ ((Routes.Add ⟨[]⟩ noLinkKernel net10 ip10_1).routes.Get ip10_5).2 = ip10_1
      ∧ ((Routes.Add ⟨[]⟩ noLinkKernel net10 ip10_1).routes.Add (okKernel 7) net10 ip10_1).err
          = some (.DuplicateRoute "route exist 10.0.0.0/24 10.0.0.1") :=
  have h := C6_add_failure_keeps_entry ⟨[]⟩ noLinkKernel net10 ip10_1 (by decide)
  ⟨by decide, (h.1 _ rfl).1, h.2.2.1, h.2.2.2.1 ip10_5 (by decide) (by simp),
    (h.2.2.2.2 (okKernel 7)).1.trans (by decide)⟩

/-- C7: on a table holding a matching entry for (N, H), when the interface
cannot be resolved or the delete-route request fails, `Delete` returns that
error and the entry is removed all the same: the table has one entry fewer, it
is the table with the first matching position removed by swap-with-last, the
same as the one `Delete` leaves when the kernel accepts the request. -/
theorem C7_delete_failure_keeps_removal (r : Routes) (k : netlink.Kernel) (N : net.IPNet)
    (H : net.IP) (h : r.holds N H) :
    (∀ e, k.LinkByName "radvpn" = .error e →
        (r.Delete k N H).err = some (.InterfaceNotFound e)
          ∧ (r.Delete k N H).routes.table.length + 1 = r.table.length)
      ∧ (∀ index e, k.LinkByName "radvpn" = .ok index → k.RouteDel ⟨N, index⟩ = some e →
          (r.Delete k N H).err = some (.KernelSyncError e)
            ∧ (r.Delete k N H).routes.table.length + 1 = r.table.length)
      ∧ (∃ pre v post, r.table = pre ++ v :: post
          ∧ (∀ w ∈ pre, ¬ (net.IPNet.String w.NetworkID = net.IPNet.String N
              ∧ net.IP.Equal w.NextHop.IP H = true))
          ∧ net.IPNet.String v.NetworkID = net.IPNet.String N
          ∧ net.IP.Equal v.NextHop.IP H = true
          ∧ (r.Delete k N H).routes.table = swapRemove r.table pre.length)
      ∧ (∀ index, (r.Delete k N H).routes = (r.Delete (okKernel index) N H).routes) := by
  obtain ⟨pre, v, post, ht, hpre, hs, he⟩ := holds_first N H r.table h
  have hr := Delete_routes_of_first r k N H pre v post ht hpre hs he
  have hd := Delete_of_first r k N H pre v post ht hpre hs he
  have hlen : (swapRemove r.table pre.length).length + 1 = r.table.length := by
    rw [ht]; exact swapRemove_length pre v post
  refine ⟨?_, ?_, ⟨pre, v, post, ht, hpre, hs, he, by rw [hr]⟩, ?_⟩
  · intro e hl
    rw [hr]
    refine ⟨?_, hlen⟩
    rw [hd, hl]
  · intro index e hl hk
    rw [hr]
    refine ⟨?_, hlen⟩
    rw [hd, hl]
    dsimp only
    rw [hk]
  · intro index
    rw [hr, Delete_routes_of_first r (okKernel index) N H pre v post ht hpre hs he]

/-- C7 on the table [10.0.0.0/24 via 10.0.0.1] while route requests are refused. -/
theorem C7_delete_failure_keeps_removal_witness :
    Routes.holds ⟨[⟨⟨ip10_1⟩, net10⟩]⟩ net10 ip10_1
      ∧ (Routes.Delete ⟨[⟨⟨ip10_1⟩, net10⟩]⟩ (refusingKernel 7) net10 ip10_1).err
          = some (.KernelSyncError ⟨"operation not permitted"⟩)
      ∧ (Routes.Delete ⟨[⟨⟨ip10_1⟩, net10⟩]⟩
          (refusingKernel 7) net10 ip10_1).routes.table.length + 1 = 1 :=
  have h := C7_delete_failure_keeps_removal ⟨[⟨⟨ip10_1⟩, net10⟩]⟩ (refusingKernel 7)
    net10 ip10_1 (by decide)
  h.2.1 7 ⟨"operation not permitted"⟩ rfl rfl |> fun c => ⟨by decide, c.1, c.2⟩

/-- C8: invariant I1 under sequential use: starting from the empty table, after
every finite sequence of `Add` and `Delete` calls, whatever their arguments and
whatever the operating system answers, no two entries at distinct positions
have both the same destination-network string and equal next hops; `Add` and
`Delete` each preserve this predicate. -/
theorem C8_I1_sequential :
    (∀ ops : List Op, I1 (run ⟨[]⟩ ops))
      ∧ (∀ r k N H, I1 r → I1 (Routes.Add r k N H).routes)
      ∧ (∀ r k N H, I1 r → I1 (Routes.Delete r k N H).routes) := by
  refine ⟨?_, I1_Add, I1_Delete⟩
  intro ops
  apply I1_run
  intro i
  exact i.elim0

/-- C9: `Add` returns no error exactly when no existing entry matches (N, H),
the interface "radvpn" resolves and the add-route request succeeds; otherwise
the error is DuplicateRoute first (no request at all having been issued), then
InterfaceNotFound (the resolution of "radvpn" having been the only request, no
add-route request having been issued), then KernelSyncError.  For a pair the
table does not hold `Add` always asks for the interface "radvpn", and when it
resolves `Add` issues exactly one add-route request, for destination N and the
index of the resolved interface, whether the kernel accepts it or not; the
route has then been appended to the table, which a duplicate leaves as it is. -/
theorem C9_add_error_precedence (r : Routes) (k : netlink.Kernel) (N : net.IPNet)
    (H : net.IP) :
    ((r.Add k N H).err = none ↔
        ¬ r.holds N H
          ∧ ∃ index, k.LinkByName "radvpn" = .ok index ∧ k.RouteAdd ⟨N, index⟩ = none)
      ∧ (r.holds N H →
          (r.Add k N H).err
            = some (.DuplicateRoute
                ("route exist " ++ net.IPNet.String N ++ " " ++ net.IP.String H)))
      ∧ (¬ r.holds N H → ∀ e, k.LinkByName "radvpn" = .error e →
          (r.Add k N H).err = some (.InterfaceNotFound e)
            ∧ ∀ route, netlink.Call.RouteAdd route ∉ (r.Add k N H).calls)
      ∧ (¬ r.holds N H → ∀ index e,
          k.LinkByName "radvpn" = .ok index → k.RouteAdd ⟨N, index⟩ = some e →
          (r.Add k N H).err = some (.KernelSyncError e))
      ∧ (∀ index, netlink.Call.LinkByName "radvpn" ∈ (r.Add k N H).calls →
          k.LinkByName "radvpn" = .ok index →
          (r.Add k N H).calls = [.LinkByName "radvpn", .RouteAdd ⟨N, index⟩])
      ∧ (r.holds N H → (r.Add k N H).calls = [])
      ∧ (¬ r.holds N H → (r.Add k N H).calls.head? = some (.LinkByName "radvpn"))
      ∧ (¬ r.holds N H → ∀ e, k.LinkByName "radvpn" = .error e →
          (r.Add k N H).calls = [.LinkByName "radvpn"])
      ∧ (¬ r.holds N H → ∀ index, k.LinkByName "radvpn" = .ok index →
          (r.Add k N H).calls = [.LinkByName "radvpn", .RouteAdd ⟨N, index⟩]
            ∧ (r.Add k N H).calls.filter netlink.Call.isRouteAdd
                = [.RouteAdd ⟨N, index⟩])
      ∧ (r.holds N H → (r.Add k N H).routes = r)
      ∧ (¬ r.holds N H → (r.Add k N H).routes.table = r.table ++ [⟨⟨H⟩, N⟩]) := by
  by_cases hh : r.holds N H
  · have ha := Add_of_holds r k N H hh
    rw [ha]
    refine ⟨⟨fun e => Option.noConfusion e, fun e => absurd hh e.1⟩, fun _ => rfl,
      fun e => absurd hh e, fun e => absurd hh e, ?_, fun _ => rfl,
      fun e => absurd hh e, fun e => absurd hh e, fun e => absurd hh e, fun _ => rfl,
      fun e => absurd hh e⟩
    intro index hm
    cases hm
  · have ha := Add_of_not_holds r k N H hh
    rw [ha]
    cases hl : k.LinkByName "radvpn" with
    | error e =>
      refine ⟨⟨fun e => Option.noConfusion e, ?_⟩, fun e => absurd e hh, ?_, ?_, ?_,
        fun e => absurd e hh, fun _ => rfl, ?_, ?_, fun e => absurd e hh, fun _ => rfl⟩
      · rintro ⟨_, index, hi, _⟩
        cases hi
      · intro _ e2 he2
        cases he2
        exact ⟨rfl, by intro route hm; simp at hm⟩
      · intro _ index e2 hi
        cases hi
      · intro index _ hi
        cases hi
      · intro _ e2 _
        rfl
      · intro _ index hi
        cases hi
    | ok index =>
      dsimp only
      cases hk : k.RouteAdd ⟨N, index⟩ with
      | some e =>
        refine ⟨⟨fun e => Option.noConfusion e, ?_⟩, fun e => absurd e hh, ?_, ?_, ?_,
          fun e => absurd e hh, fun _ => rfl, ?_, ?_, fun e => absurd e hh, fun _ => rfl⟩
        · rintro ⟨_, index2, hi, hk2⟩
          cases hi
          rw [hk] at hk2
          cases hk2
        · intro _ e2 he2
          cases he2
        · intro _ index2 e2 hi hk2
          cases hi
          rw [hk] at hk2
          cases hk2
          rfl
        · intro index2 _ hi
          cases hi
          rfl
        · intro _ e2 he2
          cases he2
        · intro _ index2 hi
          cases hi
          exact ⟨rfl, rfl⟩
      | none =>
        refine ⟨⟨fun _ => ⟨hh, index, rfl, hk⟩, fun _ => rfl⟩, fun e => absurd e hh, ?_, ?_, ?_,
          fun e => absurd e hh, fun _ => rfl, ?_, ?_, fun e => absurd e hh, fun _ => rfl⟩
        · intro _ e2 he2
          cases he2
        · intro _ index2 e2 hi hk2
          cases hi
          rw [hk] at hk2
          cases hk2
        · intro index2 _ hi
          cases hi
          rfl
        · intro _ e2 he2
          cases he2
        · intro _ index2 hi
          cases hi
          exact ⟨rfl, rfl⟩

/-- C10: on the empty table, with the interface resolving and the kernel
accepting the request, `Add(N, H)` succeeds and afterwards `Get(A)` returns H
for every address A that N contains. -/
theorem C10_add_then_get (r : Routes) (k : netlink.Kernel) (N : net.IPNet) (H : net.IP)
    (index : Int) (hr : r.table = []) (hl : k.LinkByName "radvpn" = .ok index)
    (hk : k.RouteAdd ⟨N, index⟩ = none) :
    (r.Add k N H).err = none
      ∧ ∀ A, net.IPNet.Contains N A = true → ((r.Add k N H).routes.Get A).2 = H := by
  have hh : ¬ r.holds N H := by
    rintro ⟨x, hx, _⟩
    rw [hr] at hx
    cases hx
  have ha := Add_of_not_holds r k N H hh
  rw [hl] at ha
  dsimp only at ha
  rw [hk] at ha
  rw [ha]
  refine ⟨rfl, ?_⟩
  intro A hc
  show Get.loop A (r.table ++ [⟨⟨H⟩, N⟩]) = H
  rw [hr]
  simp [Get.loop, hc]

/-- C10 for scenario A: after `Add(10.0.0.0/24, 10.0.0.1)` on the empty table,
`Get(10.0.0.5)` returns 10.0.0.1. -/
theorem C10_add_then_get_witness :
    (Routes.mk []).table = []
      ∧ (okKernel 7).LinkByName "radvpn" = .ok 7
      ∧ (okKernel 7).RouteAdd ⟨net10, 7⟩ = none
      ∧ (Routes.Add ⟨[]⟩ (okKernel 7) net10 ip10_1).err = none
      ∧ ((Routes.Add ⟨[]⟩ (okKernel 7) net10 ip10_1).routes.Get ip10_5).2 = ip10_1 :=
  have h := C10_add_then_get ⟨[]⟩ (okKernel 7) net10 ip10_1 7 rfl rfl rfl
  ⟨rfl, rfl, rfl, h.1, h.2 ip10_5 (by decide)⟩

/-- Swap-with-last keeps every entry but the removed one, each as often as before. -/
theorem swapRemove_perm (pre : List Route) (v : Route) (post : List Route) :
    (swapRemove (pre ++ v :: post) pre.length).Perm (pre ++ post) := by
  rcases List.eq_nil_or_concat post with rfl | ⟨mid, l, rfl⟩
  · rw [swapRemove_last]; simp
  · rw [List.concat_eq_append, swapRemove_inner]
    exact List.Perm.append_left pre (List.perm_append_singleton l mid).symm

/-- Swap-with-last written out: the last entry is copied over the position and
the last position is dropped. -/
theorem swapRemove_eq (table : List Route) (k : Nat) (last : Route)
    (h : table.getLast? = some last) :
    swapRemove table k = (table.set k last).dropLast := by
  unfold swapRemove
  rw [h]

/-- In a table satisfying I1, no entry other than the first matching one matches the pair. -/
theorem I1_no_other_match (pre : List Route) (v : Route) (post : List Route)
    (networkid : net.IPNet) (nexthop : net.IP)
    (h : I1 ⟨pre ++ v :: post⟩)
    (hs : net.IPNet.String v.NetworkID = net.IPNet.String networkid)
    (he : net.IP.Equal v.NextHop.IP nexthop = true) :
    ∀ w ∈ pre ++ post, ¬ (net.IPNet.String w.NetworkID = net.IPNet.String networkid
      ∧ net.IP.Equal w.NextHop.IP nexthop = true) := by
  rw [I1_iff_pairwise] at h
  have hp := List.pairwise_append.1 h
  have hv := List.pairwise_cons.1 hp.2.1
  intro w hw hm
  have hwv : net.IP.Equal w.NextHop.IP v.NextHop.IP = true :=
    net.IP.Equal_trans _ _ _ hm.2 (by rw [net.IP.Equal_comm]; exact he)
  rcases List.mem_append.1 hw with hw | hw
  · exact hp.2.2 w hw v (List.mem_cons_self _ _) ⟨hm.1.trans hs.symm, hwv⟩
  · exact Route.differs_symm (hv.1 w hw) ⟨hm.1.trans hs.symm, hwv⟩

/-- C11: on a table holding a matching entry for (N, H), `Delete(N, H)` removes
exactly one entry: the table goes from n entries to n-1, the entry removed is the
first one matching (N, H), the result is the old sequence with that position
overwritten by the last entry and the last position dropped, and every other
entry is present as often as before. -/
theorem C11_delete_removes_first_match (r : Routes) (k : netlink.Kernel) (N : net.IPNet)
    (H : net.IP) (h : r.holds N H) :
    ∃ pre v post, r.table = pre ++ v :: post
      ∧ (∀ w ∈ pre, ¬ (net.IPNet.String w.NetworkID = net.IPNet.String N
          ∧ net.IP.Equal w.NextHop.IP H = true))
      ∧ net.IPNet.String v.NetworkID = net.IPNet.String N
      ∧ net.IP.Equal v.NextHop.IP H = true
      ∧ (r.Delete k N H).routes.table.length + 1 = r.table.length
      ∧ (∀ last, r.table.getLast? = some last →
          (r.Delete k N H).routes.table = (r.table.set pre.length last).dropLast)
      ∧ (r.Delete k N H).routes.table.Perm (pre ++ post) := by
  obtain ⟨pre, v, post, ht, hpre, hs, he⟩ := holds_first N H r.table h
  have hr := Delete_routes_of_first r k N H pre v post ht hpre hs he
  refine ⟨pre, v, post, ht, hpre, hs, he, ?_, ?_, ?_⟩
  · rw [hr]
    show (swapRemove r.table pre.length).length + 1 = r.table.length
    rw [ht]
    exact swapRemove_length pre v post
  · intro last hl
    rw [hr]
    exact swapRemove_eq r.table pre.length last hl
  · rw [hr]
    show (swapRemove r.table pre.length).Perm (pre ++ post)
    rw [ht]
    exact swapRemove_perm pre v post

/-- C11 on a table of three routes, deleting the first: the last one takes its place. -/
theorem C11_delete_removes_first_match_witness :
    Routes.holds ⟨[⟨⟨ip10_1⟩, net10⟩, ⟨⟨ip10_5⟩, net10⟩, ⟨⟨none⟩, net10⟩]⟩ net10 ip10_1
      ∧ (Routes.Delete ⟨[⟨⟨ip10_1⟩, net10⟩, ⟨⟨ip10_5⟩, net10⟩, ⟨⟨none⟩, net10⟩]⟩
          noLinkKernel net10 ip10_1).routes.table = [⟨⟨none⟩, net10⟩, ⟨⟨ip10_5⟩, net10⟩]
      ∧ ∃ pre v post,
          [(⟨⟨ip10_1⟩, net10⟩ : Route), ⟨⟨ip10_5⟩, net10⟩, ⟨⟨none⟩, net10⟩] = pre ++ v :: post
          ∧ (Routes.Delete ⟨[⟨⟨ip10_1⟩, net10⟩, ⟨⟨ip10_5⟩, net10⟩, ⟨⟨none⟩, net10⟩]⟩
              noLinkKernel net10 ip10_1).routes.table.Perm (pre ++ post) :=
  have h := C11_delete_removes_first_match
    ⟨[⟨⟨ip10_1⟩, net10⟩, ⟨⟨ip10_5⟩, net10⟩, ⟨⟨none⟩, net10⟩]⟩ noLinkKernel net10 ip10_1
    (by decide)
  ⟨by decide, by decide,
    h.elim fun pre hp => hp.elim fun v hv => hv.elim fun post hq =>
      ⟨pre, v, post, hq.1, hq.2.2.2.2.2.2⟩⟩

/-- C12: on a table satisfying I1 that holds (N, H), after `Delete(N, H)` has
removed the entry, whatever the kernel answers, the pair is no longer present:
a second `Delete(N, H)` fails with RouteNotFound and leaves the table as it is,
and a following `Add(N, H)` passes the duplicate check and appends the route. -/
theorem C12_delete_then_absent (r : Routes) (k : netlink.Kernel) (N : net.IPNet)
    (H : net.IP) (hI : I1 r) (h : r.holds N H) :
    ¬ (r.Delete k N H).routes.holds N H
      ∧ (∀ k2, ((r.Delete k N H).routes.Delete k2 N H).err
            = some (.RouteNotFound ("can not delete route, not found " ++ net.IPNet.String N))
          ∧ ((r.Delete k N H).routes.Delete k2 N H).routes.table.length
            = (r.Delete k N H).routes.table.length)
      ∧ (∀ k2, (∀ msg, ((r.Delete k N H).routes.Add k2 N H).err
            ≠ some (.DuplicateRoute msg))
          ∧ ((r.Delete k N H).routes.Add k2 N H).routes.table
            = (r.Delete k N H).routes.table ++ [⟨⟨H⟩, N⟩]) := by
  obtain ⟨pre, v, post, ht, hpre, hs, he⟩ := holds_first N H r.table h
  have hr := Delete_routes_of_first r k N H pre v post ht hpre hs he
  have hno : ¬ (r.Delete k N H).routes.holds N H := by
    rw [hr]
    rintro ⟨w, hw, hm⟩
    have hw2 : w ∈ swapRemove (pre ++ v :: post) pre.length := by rw [← ht]; exact hw
    have hw3 : w ∈ pre ++ post := (swapRemove_perm pre v post).mem_iff.1 hw2
    have hI2 : I1 ⟨pre ++ v :: post⟩ := by rw [← ht]; exact hI
    exact I1_no_other_match pre v post N H hI2 hs he w hw3 hm
  refine ⟨hno, ?_, ?_⟩
  · intro k2
    rw [Delete_of_not_holds _ k2 N H hno]
    exact ⟨rfl, rfl⟩
  · intro k2
    refine ⟨?_, ?_⟩
    · intro msg hmsg
      rw [Add_of_not_holds _ k2 N H hno] at hmsg
      cases hl : k2.LinkByName "radvpn" with
      | error e => rw [hl] at hmsg; cases hmsg
      | ok index =>
        rw [hl] at hmsg
        dsimp only at hmsg
        cases hk : k2.RouteAdd ⟨N, index⟩ with
        | some e => rw [hk] at hmsg; cases hmsg
        | none => rw [hk] at hmsg; cases hmsg
    · rw [Add_routes_of_not_holds _ k2 N H hno]

/-- C12 on the table [10.0.0.0/24 via 10.0.0.1, 10.0.0.0/24 via 10.0.0.5] while
route requests are refused. -/
theorem C12_delete_then_absent_witness :
    I1 ⟨[⟨⟨ip10_1⟩, net10⟩, ⟨⟨ip10_5⟩, net10⟩]⟩
      ∧ Routes.holds ⟨[⟨⟨ip10_1⟩, net10⟩, ⟨⟨ip10_5⟩, net10⟩]⟩ net10 ip10_1
      ∧ ¬ (Routes.Delete ⟨[⟨⟨ip10_1⟩, net10⟩, ⟨⟨ip10_5⟩, net10⟩]⟩
            (refusingKernel 7) net10 ip10_1).routes.holds net10 ip10_1
      ∧ ((Routes.Delete ⟨[⟨⟨ip10_1⟩, net10⟩, ⟨⟨ip10_5⟩, net10⟩]⟩
            (refusingKernel 7) net10 ip10_1).routes.Delete (okKernel 7) net10 ip10_1).err
          = some (.RouteNotFound "can not delete route, not found 10.0.0.0/24") :=
  have h := C12_delete_then_absent ⟨[⟨⟨ip10_1⟩, net10⟩, ⟨⟨ip10_5⟩, net10⟩]⟩
    (refusingKernel 7) net10 ip10_1 (by decide) (by decide)
  ⟨by decide, by decide, h.1, (h.2.1 (okKernel 7)).1.trans (by decide)⟩

/-- Membership in the kernel table after an add-route request. -/
theorem kernelHas_cons (K : List net.IPNet) (M networkid : net.IPNet) :
    kernelHas (M :: K) networkid
      ↔ net.IPNet.String M = net.IPNet.String networkid ∨ kernelHas K networkid := by
  simp [kernelHas]

/-- Membership in the kernel table after a delete-route request for `D`. -/
theorem kernelHas_filter (K : List net.IPNet) (D networkid : net.IPNet) :
    kernelHas (K.filter (fun M => net.IPNet.String M != net.IPNet.String D)) networkid
      ↔ kernelHas K networkid ∧ net.IPNet.String networkid ≠ net.IPNet.String D := by
  unfold kernelHas
  constructor
  · rintro ⟨M, hM, hs⟩
    rw [List.mem_filter] at hM
    refine ⟨⟨M, hM.1, hs⟩, ?_⟩
    rw [← hs]
    simpa using hM.2
  · rintro ⟨⟨M, hM, hs⟩, hne⟩
    refine ⟨M, ?_, hs⟩
    rw [List.mem_filter]
    refine ⟨hM, ?_⟩
    rw [← hs] at hne
    simpa using hne

/-- The entries of the table after the append. -/
theorem hasEntry_append (t : List Route) (N0 : net.IPNet) (H : net.IP) (networkid : net.IPNet) :
    Routes.hasEntry ⟨t ++ [⟨⟨H⟩, N0⟩]⟩ networkid
      ↔ Routes.hasEntry ⟨t⟩ networkid
        ∨ net.IPNet.String N0 = net.IPNet.String networkid := by
  simp [Routes.hasEntry, or_and_right, exists_or]

/-- The entries of the table after a removal by swap-with-last. -/
theorem hasEntry_swapRemove (pre : List Route) (v : Route) (post : List Route)
    (networkid : net.IPNet) :
    Routes.hasEntry ⟨swapRemove (pre ++ v :: post) pre.length⟩ networkid
      ↔ ∃ w ∈ pre ++ post, net.IPNet.String w.NetworkID = net.IPNet.String networkid := by
  unfold Routes.hasEntry
  constructor
  · rintro ⟨w, hw, hs⟩
    exact ⟨w, (swapRemove_perm pre v post).mem_iff.1 hw, hs⟩
  · rintro ⟨w, hw, hs⟩
    exact ⟨w, (swapRemove_perm pre v post).mem_iff.2 hw, hs⟩

/-- What a call of `Add` in which nothing fails does to the two tables. -/
theorem Add_sync (r : Routes) (K : List net.IPNet) (k : netlink.Kernel) (N : net.IPNet)
    (H : net.IP) (hok : (r.Add k N H).kernelOk = true) :
    (r.holds N H ∧ (r.Add k N H).routes = r ∧ kernelAfter K (r.Add k N H) = K)
      ∨ (¬ r.holds N H ∧ (r.Add k N H).routes = ⟨r.table ++ [⟨⟨H⟩, N⟩]⟩
          ∧ kernelAfter K (r.Add k N H) = N :: K) := by
  by_cases hh : r.holds N H
  · left
    rw [Add_of_holds r k N H hh]
    exact ⟨hh, rfl, rfl⟩
  · right
    rw [Add_of_not_holds r k N H hh] at hok ⊢
    cases hl : k.LinkByName "radvpn" with
    | error e =>
      rw [hl] at hok
      cases hok
    | ok index =>
      rw [hl] at hok
      dsimp only at hok ⊢
      cases hk : k.RouteAdd ⟨N, index⟩ with
      | some e =>
        rw [hk] at hok
        cases hok
      | none => exact ⟨hh, rfl, rfl⟩

/-- What a call of `Delete` in which nothing fails does to the two tables. -/
theorem Delete_sync (r : Routes) (K : List net.IPNet) (k : netlink.Kernel) (N : net.IPNet)
    (H : net.IP) (hok : (r.Delete k N H).kernelOk = true) :
    (¬ r.holds N H ∧ (r.Delete k N H).routes = r ∧ kernelAfter K (r.Delete k N H) = K)
      ∨ (∃ pre v post, r.table = pre ++ v :: post
          ∧ net.IPNet.String v.NetworkID = net.IPNet.String N
          ∧ (r.Delete k N H).routes = ⟨swapRemove (pre ++ v :: post) pre.length⟩
          ∧ kernelAfter K (r.Delete k N H)
            = K.filter (fun M => net.IPNet.String M != net.IPNet.String N)) := by
  by_cases hh : r.holds N H
  · right
    obtain ⟨pre, v, post, ht, hpre, hs, he⟩ := holds_first N H r.table hh
    refine ⟨pre, v, post, ht, hs, ?_⟩
    rw [Delete_of_first r k N H pre v post ht hpre hs he] at hok ⊢
    rw [ht]
    cases hl : k.LinkByName "radvpn" with
    | error e =>
      rw [hl] at hok
      cases hok
    | ok index =>
      rw [hl] at hok
      dsimp only at hok ⊢
      cases hk : k.RouteDel ⟨N, index⟩ with
      | some e =>
        rw [hk] at hok
        cases hok
      | none => exact ⟨rfl, rfl⟩
  · left
    rw [Delete_of_not_holds r k N H hh]
    exact ⟨hh, rfl, rfl⟩

/-- One call in which nothing fails keeps the kernel table inside the in-memory table. -/
theorem step_kernel_sub (r : Routes) (K : List net.IPNet) (op : Op)
    (hok : (Op.result r op).kernelOk = true)
    (h : ∀ networkid, kernelHas K networkid → r.hasEntry networkid) :
    ∀ networkid, kernelHas (kernelAfter K (Op.result r op)) networkid →
      (Op.result r op).routes.hasEntry networkid := by
  intro M
  cases op with
  | Add k N H =>
    rcases Add_sync r K k N H hok with ⟨_, hr, hK⟩ | ⟨_, hr, hK⟩
    · show kernelHas (kernelAfter K (r.Add k N H)) M → (r.Add k N H).routes.hasEntry M
      rw [hr, hK]
      exact h M
    · show kernelHas (kernelAfter K (r.Add k N H)) M → (r.Add k N H).routes.hasEntry M
      rw [hr, hK, kernelHas_cons, hasEntry_append]
      rintro (hs | hM)
      · exact Or.inr hs
      · exact Or.inl (h M hM)
  | Delete k N H =>
    rcases Delete_sync r K k N H hok with ⟨_, hr, hK⟩ | ⟨pre, v, post, ht, hs, hr, hK⟩
    · show kernelHas (kernelAfter K (r.Delete k N H)) M → (r.Delete k N H).routes.hasEntry M
      rw [hr, hK]
      exact h M
    · show kernelHas (kernelAfter K (r.Delete k N H)) M → (r.Delete k N H).routes.hasEntry M
      rw [hr, hK, kernelHas_filter, hasEntry_swapRemove]
      rintro ⟨hM, hne⟩
      obtain ⟨w, hw, hws⟩ := h M hM
      rw [ht] at hw
      refine ⟨w, ?_, hws⟩
      rcases List.mem_append.1 hw with hw | hw
      · exact List.mem_append_left _ hw
      · rcases List.mem_cons.1 hw with rfl | hw
        · exact absurd (hws.symm.trans hs) hne
        · exact List.mem_append_right _ hw

/-- One call in which nothing fails and which gives no second next hop to a
network keeps the in-memory table inside the kernel table, and its networks single. -/
theorem step_table_sub (r : Routes) (K : List net.IPNet) (op : Op)
    (hok : (Op.result r op).kernelOk = true)
    (hop : singleHop r [op] = true)
    (hu : r.singleNets)
    (h : ∀ networkid, r.hasEntry networkid → kernelHas K networkid) :
    (Op.result r op).routes.singleNets
      ∧ ∀ networkid, (Op.result r op).routes.hasEntry networkid →
          kernelHas (kernelAfter K (Op.result r op)) networkid := by
  cases op with
  | Add k N H =>
    have hfresh : r.hasEntry N → r.holds N H := by
      simp only [singleHop, Bool.and_true, decide_eq_true_eq] at hop
      exact hop
    rcases Add_sync r K k N H hok with ⟨_, hr, hK⟩ | ⟨hh, hr, hK⟩
    · show (r.Add k N H).routes.singleNets
        ∧ ∀ M, (r.Add k N H).routes.hasEntry M → kernelHas (kernelAfter K (r.Add k N H)) M
      rw [hr, hK]
      exact ⟨hu, h⟩
    · show (r.Add k N H).routes.singleNets
        ∧ ∀ M, (r.Add k N H).routes.hasEntry M → kernelHas (kernelAfter K (r.Add k N H)) M
      rw [hr, hK]
      refine ⟨?_, ?_⟩
      · refine List.pairwise_append.2 ⟨hu, List.pairwise_singleton _ _, ?_⟩
        intro a ha b hb hs
        rw [List.mem_singleton] at hb
        subst hb
        exact hh (hfresh ⟨a, ha, hs⟩)
      · intro M
        rw [kernelHas_cons, hasEntry_append]
        rintro (hM | hs)
        · exact Or.inr (h M hM)
        · exact Or.inl hs
  | Delete k N H =>
    rcases Delete_sync r K k N H hok with ⟨_, hr, hK⟩ | ⟨pre, v, post, ht, hs, hr, hK⟩
    · show (r.Delete k N H).routes.singleNets
        ∧ ∀ M, (r.Delete k N H).routes.hasEntry M
            → kernelHas (kernelAfter K (r.Delete k N H)) M
      rw [hr, hK]
      exact ⟨hu, h⟩
    · show (r.Delete k N H).routes.singleNets
        ∧ ∀ M, (r.Delete k N H).routes.hasEntry M
            → kernelHas (kernelAfter K (r.Delete k N H)) M
      rw [hr, hK]
      have hu2 : (pre ++ v :: post).Pairwise
          fun a b => net.IPNet.String a.NetworkID ≠ net.IPNet.String b.NetworkID := by
        rw [← ht]; exact hu
      have hp := List.pairwise_append.1 hu2
      have hv := List.pairwise_cons.1 hp.2.1
      refine ⟨?_, ?_⟩
      · have hsub : (pre ++ post).Pairwise
            fun a b => net.IPNet.String a.NetworkID ≠ net.IPNet.String b.NetworkID :=
          hu2.sublist (List.Sublist.append_left (List.sublist_cons_self v post) pre)
        exact ((swapRemove_perm pre v post).pairwise_iff (fun hxy => Ne.symm hxy)).2 hsub
      · intro M
        rw [kernelHas_filter, hasEntry_swapRemove]
        rintro ⟨w, hw, hws⟩
        refine ⟨h M ⟨w, ?_, hws⟩, ?_⟩
        · rw [ht]
          rcases List.mem_append.1 hw with hw | hw
          · exact List.mem_append_left _ hw
          · exact List.mem_append_right _ (List.mem_cons_of_mem _ hw)
        · intro hMN
          have hwv : net.IPNet.String w.NetworkID = net.IPNet.String v.NetworkID :=
            hws.trans (hMN.trans hs.symm)
          rcases List.mem_append.1 hw with hw | hw
          · exact hp.2.2 w hw v (List.mem_cons_self _ _) hwv
          · exact hv.1 w hw hwv.symm

/-- A run in which nothing fails keeps the kernel table inside the in-memory table. -/
theorem runSync_kernel_sub (ops : List Op) :
    ∀ (r : Routes) (K : List net.IPNet), allSucceed r ops = true →
      (∀ networkid, kernelHas K networkid → r.hasEntry networkid) →
      ∀ networkid, kernelHas (runSync (r, K) ops).2 networkid →
        (runSync (r, K) ops).1.hasEntry networkid := by
  induction ops with
  | nil => intro r K _ h; exact h
  | cons op ops ih =>
    intro r K hok h
    simp only [allSucceed, Bool.and_eq_true] at hok
    exact ih _ _ hok.2 (step_kernel_sub r K op hok.1 h)

/-- The condition on a run, split at its first call. -/
theorem singleHop_cons (r : Routes) (op : Op) (ops : List Op)
    (h : singleHop r (op :: ops) = true) :
    singleHop r [op] = true ∧ singleHop (Op.result r op).routes ops = true := by
  cases op with
  | Add k N H =>
    simp only [singleHop, Bool.and_eq_true] at h ⊢
    exact ⟨⟨h.1, trivial⟩, h.2⟩
  | Delete k N H =>
    simp only [singleHop] at h ⊢
    exact ⟨trivial, h⟩

/-- A run in which nothing fails and no `Add` gives a second next hop to a
network keeps the in-memory table inside the kernel table. -/
theorem runSync_table_sub (ops : List Op) :
    ∀ (r : Routes) (K : List net.IPNet), allSucceed r ops = true →
      singleHop r ops = true → r.singleNets →
      (∀ networkid, r.hasEntry networkid → kernelHas K networkid) →
      ∀ networkid, (runSync (r, K) ops).1.hasEntry networkid →
        kernelHas (runSync (r, K) ops).2 networkid := by
  induction ops with
  | nil => intro r K _ _ _ h; exact h
  | cons op ops ih =>
    intro r K hok hop hu h
    simp only [allSucceed, Bool.and_eq_true] at hok
    have hs := singleHop_cons r op ops hop
    have hstep := step_table_sub r K op hok.1 hs.1 hu h
    exact ih _ _ hok.2 hs.2 hstep.1 hstep.2

/-- The answers netlink gives from its table refuse the duplicates of that table. -/
theorem tableKernel_refuses (K : List net.IPNet) (index : Int) :
    refusesDuplicates K (tableKernel K index) := by
  intro route h
  simp [tableKernel, h]

/-- With a kernel that accepted a second add-route request for a destination
it already has, the two tables would part: after adding 10.0.0.0/24 via
10.0.0.1, adding it via 10.0.0.2 and deleting it via 10.0.0.1, the in-memory
table is left with the entry via 10.0.0.2 and the kernel table is left empty. -/
theorem twoHopRun_accepting_kernel :
    allSucceed ⟨[]⟩ twoHopRun = true
      ∧ ¬ netlinkRun (⟨[]⟩, []) twoHopRun
      ∧ (runSync (⟨[]⟩, []) twoHopRun).1.table = [⟨⟨ip10_2⟩, net10⟩]
      ∧ (runSync (⟨[]⟩, []) twoHopRun).2 = []
      ∧ ¬ I2 (runSync (⟨[]⟩, []) twoHopRun).1 (runSync (⟨[]⟩, []) twoHopRun).2 := by
  have h1 : (runSync (⟨[]⟩, []) twoHopRun).1.hasEntry net10 := by decide
  have h2 : ¬ kernelHas (runSync (⟨[]⟩, []) twoHopRun).2 net10 := by decide
  refine ⟨by decide, ?_, by decide, by decide, fun h => h2 ((h net10).1 h1)⟩
  rintro ⟨_, h, _⟩
  have hK : kernelHas (kernelAfter [] (Op.result ⟨[]⟩ (.Add (okKernel 7) net10 ip10_1))) net10 := by
    decide
  have := h ⟨net10, 7⟩ hK
  cases this

/-- With netlink answering from its table the second next hop is refused: the
run that adds 10.0.0.0/24 via 10.0.0.1 and then via 10.0.0.2 is not one in
which every kernel request succeeds; the second `Add` returns the error of the
kernel, having appended its route. -/
theorem secondHopRun_refused :
    netlinkRun (⟨[]⟩, []) secondHopRun
      ∧ allSucceed ⟨[]⟩ secondHopRun = false
      ∧ (Routes.Add ⟨[⟨⟨ip10_1⟩, net10⟩]⟩ (tableKernel [net10] 7) net10 ip10_2).err
          = some (.KernelSyncError ⟨"file exists"⟩)
      ∧ (runSync (⟨[]⟩, []) secondHopRun).1.table = [⟨⟨ip10_1⟩, net10⟩, ⟨⟨ip10_2⟩, net10⟩] := by
  refine ⟨⟨tableKernel_refuses [] 7, ?_, trivial⟩, by decide, by decide, by decide⟩
  have e : kernelAfter [] (Op.result ⟨[]⟩ (.Add (tableKernel [] 7) net10 ip10_1)) = [net10] := by
    decide
  rw [e]
  exact tableKernel_refuses [net10] 7

/-- Reading through a pointer what has just been written through it. -/
theorem Store.read_write (s : Store) (p : RoutesPtr) (r : Routes) :
    (s.write p r).read p = r := by
  simp [Store.read, Store.write]

/-- The table `new(Routes)` allocates is empty. -/
theorem Store.read_alloc (s : Store) : (Store.alloc s).1.read (Store.alloc s).2 = ⟨[]⟩ := by
  simp [Store.read, Store.alloc]

/-- The empty table holds no pair. -/
theorem not_holds_nil (networkid : net.IPNet) (nexthop : net.IP) :
    ¬ Routes.holds ⟨[]⟩ networkid nexthop := by
  rintro ⟨_, hm, _⟩
  cases hm

/-- C14: `New(ctx)` returns a Router whose table is empty: `Get` returns nil for
every address and `Delete` fails with RouteNotFound for every pair.  `Table()`
returns the pointer the Router owns and changes nothing; two calls return the
same pointer, so that after an `Add` through the first, the second refers to the
table that `Add` left, and `Get` through it finds the added route. -/
theorem C14_new_and_table (ctx : Context) (s : Store) :
    ((New ctx s).1.read ((New ctx s).2.Table (New ctx s).1).2).table = []
      ∧ (∀ A, (RoutesPtr.Get ((New ctx s).2.Table (New ctx s).1).2 (New ctx s).1 A).2 = none)
      ∧ (∀ k N H, (RoutesPtr.Delete ((New ctx s).2.Table (New ctx s).1).2 (New ctx s).1 k N H).2.err
          = some (.RouteNotFound ("can not delete route, not found " ++ net.IPNet.String N)))
      ∧ (∀ (rt : Router) (s0 : Store),
          (rt.Table s0).1 = s0
            ∧ (rt.Table s0).2 = rt.routes
            ∧ (rt.Table (rt.Table s0).1).2 = (rt.Table s0).2
            ∧ ∀ k N H,
                (RoutesPtr.Add (rt.Table s0).2 s0 k N H).1.read (rt.Table (rt.Table s0).1).2
                  = (RoutesPtr.Add (rt.Table s0).2 s0 k N H).2.routes
                ∧ (¬ (s0.read (rt.Table s0).2).holds N H →
                    ∀ A, net.IPNet.Contains N A = true →
                      (∀ x ∈ (s0.read (rt.Table s0).2).table,
                        net.IPNet.Contains x.NetworkID A = false) →
                      (RoutesPtr.Get (rt.Table (rt.Table s0).1).2
                        (RoutesPtr.Add (rt.Table s0).2 s0 k N H).1 A).2 = H)) := by
  have hnew : (New ctx s).1.read ((New ctx s).2.Table (New ctx s).1).2 = ⟨[]⟩ :=
    Store.read_alloc s
  refine ⟨by rw [hnew], ?_, ?_, ?_⟩
  · intro A
    show ((((New ctx s).1.read ((New ctx s).2.Table (New ctx s).1).2)).Get A).2 = none
    rw [hnew]
    rfl
  · intro k N H
    show (((New ctx s).1.read ((New ctx s).2.Table (New ctx s).1).2).Delete k N H).err = _
    rw [hnew, Delete_of_not_holds _ k N H (not_holds_nil N H)]
  · intro rt s0
    refine ⟨rfl, rfl, rfl, ?_⟩
    intro k N H
    have hrw : (RoutesPtr.Add rt.routes s0 k N H).1.read rt.routes
        = ((s0.read rt.routes).Add k N H).routes := Store.read_write _ _ _
    refine ⟨hrw, ?_⟩
    intro hh A hc hno
    have hh2 : ¬ (s0.read rt.routes).holds N H := hh
    show (((RoutesPtr.Add rt.routes s0 k N H).1.read rt.routes).Get A).2 = H
    rw [hrw, Add_routes_of_not_holds _ k N H hh2]
    exact Get_loop_first A _ ⟨⟨H⟩, N⟩ [] hno hc

/-- The loop of `Get` does not go past an entry that contains the address. -/
theorem Get_loop_append (dst : net.IP) (t rest : List Route)
    (h : ∃ x ∈ t, net.IPNet.Contains x.NetworkID dst = true) :
    Get.loop dst (t ++ rest) = Get.loop dst t := by
  induction t with
  | nil => obtain ⟨_, hm, _⟩ := h; cases hm
  | cons a t ih =>
    rw [List.cons_append]
    unfold Get.loop
    by_cases ha : net.IPNet.Contains a.NetworkID dst = true
    · rw [if_pos ha, if_pos ha]
    · rw [if_neg ha, if_neg ha]
      apply ih
      obtain ⟨x, hx, hc⟩ := h
      rcases List.mem_cons.1 hx with rfl | hx
      · exact absurd hc ha
      · exact ⟨x, hx, hc⟩

/-- `Add` fails with DuplicateRoute exactly when the table holds the pair. -/
theorem Add_err_duplicate_iff (r : Routes) (k : netlink.Kernel) (N : net.IPNet) (H : net.IP) :
    (∃ msg, (r.Add k N H).err = some (.DuplicateRoute msg)) ↔ r.holds N H := by
  constructor
  · rintro ⟨msg, hmsg⟩
    by_contra hh
    rw [Add_of_not_holds r k N H hh] at hmsg
    cases hl : k.LinkByName "radvpn" with
    | error e => rw [hl] at hmsg; cases hmsg
    | ok index =>
      rw [hl] at hmsg
      dsimp only at hmsg
      cases hk : k.RouteAdd ⟨N, index⟩ with
      | some e => rw [hk] at hmsg; cases hmsg
      | none => rw [hk] at hmsg; cases hmsg
  · intro hh
    rw [Add_of_holds r k N H hh]
    exact ⟨_, rfl⟩

/-- `Delete` fails with RouteNotFound exactly when the table does not hold the pair. -/
theorem Delete_err_not_found_iff (r : Routes) (k : netlink.Kernel) (N : net.IPNet)
    (H : net.IP) :
    (∃ msg, (r.Delete k N H).err = some (.RouteNotFound msg)) ↔ ¬ r.holds N H := by
  constructor
  · rintro ⟨msg, hmsg⟩ hh
    obtain ⟨pre, v, post, ht, hpre, hs, he⟩ := holds_first N H r.table hh
    rw [Delete_of_first r k N H pre v post ht hpre hs he] at hmsg
    cases hl : k.LinkByName "radvpn" with
    | error e => rw [hl] at hmsg; cases hmsg
    | ok index =>
      rw [hl] at hmsg
      dsimp only at hmsg
      cases hk : k.RouteDel ⟨N, index⟩ with
      | some e => rw [hk] at hmsg; cases hmsg
      | none => rw [hk] at hmsg; cases hmsg
  · intro hh
    rw [Delete_of_not_holds r k N H hh]
    exact ⟨_, rfl⟩

/-- C15: `Dump` writes the header line "networkid<TAB>nexthop" and then exactly
one line for each entry, in table order: the destination network and the next
hop of the entry, separated by one space and ended by a newline, neither of the
two texts having a space or a newline in it; `Dump` leaves the table unchanged. -/
theorem C15_dump_lines (r : Routes) :
    (r.Dump).2.length = r.table.length + 1
      ∧ (r.Dump).2.head? = some "networkid\tnexthop\n"
      ∧ (∀ i (h : i < r.table.length),
          (r.Dump).2[i + 1]?
            = some (net.IPNet.String (r.table.get ⟨i, h⟩).NetworkID ++ " "
                ++ net.IP.String (r.table.get ⟨i, h⟩).NextHop.IP ++ "\n"))
      ∧ (∀ route ∈ r.table,
          net.plainText (net.IPNet.String route.NetworkID)
            ∧ net.plainText (net.IP.String route.NextHop.IP))
      ∧ (r.Dump).1 = r := by
  refine ⟨by simp [Routes.Dump], rfl, ?_, ?_, rfl⟩
  · intro i h
    simp [Routes.Dump, List.getElem?_eq_getElem h]
  · intro route _
    exact ⟨net.IPNet_String_plain _, net.IP_String_plain _⟩

/-- C16: for a pair (N, H) the table T does not hold, `Add(N, H)` followed by
`Delete(N, H)` leaves the table equal to T as a sequence: `Add` appends the new
entry last, and swap-with-last at the last position is a plain truncation. -/
theorem C16_add_delete_same_sequence (r : Routes) (k1 k2 : netlink.Kernel) (N : net.IPNet)
    (H : net.IP) (h : ¬ r.holds N H) :
    ((r.Add k1 N H).routes.Delete k2 N H).routes = r
      ∧ ((r.Add k1 N H).routes.Delete k2 N H).routes.table = r.table
      ∧ (r.Add k1 N H).routes.table = r.table ++ [⟨⟨H⟩, N⟩]
      ∧ ((r.Add k1 N H).routes.Delete k2 N H).routes.table
          = swapRemove (r.Add k1 N H).routes.table r.table.length
      ∧ swapRemove (r.table ++ [(⟨⟨H⟩, N⟩ : Route)]) r.table.length
          = (r.table ++ [(⟨⟨H⟩, N⟩ : Route)]).dropLast := by
  have hd := Delete_Add_routes r k1 k2 N H h
  have ha := Add_routes_of_not_holds r k1 N H h
  refine ⟨hd, by rw [hd], by rw [ha], ?_, ?_⟩
  · rw [hd, ha]
    exact (swapRemove_last r.table ⟨⟨H⟩, N⟩).symm
  · rw [swapRemove_last, List.dropLast_concat]

/-- C16 on the table [10.0.0.0/8 via 10.0.0.2, 172.16.0.0/16 via 10.0.0.5],
adding and deleting 10.0.0.0/24 via 10.0.0.1 while no interface resolves. -/
theorem C16_add_delete_same_sequence_witness :
    ¬ Routes.holds ⟨[⟨⟨ip10_2⟩, net10_8⟩, ⟨⟨ip10_5⟩, net172⟩]⟩ net10 ip10_1
      ∧ ((Routes.Add ⟨[⟨⟨ip10_2⟩, net10_8⟩, ⟨⟨ip10_5⟩, net172⟩]⟩
            noLinkKernel net10 ip10_1).routes.Delete noLinkKernel net10 ip10_1).routes.table
          = [⟨⟨ip10_2⟩, net10_8⟩, ⟨⟨ip10_5⟩, net172⟩] :=
  have h := C16_add_delete_same_sequence ⟨[⟨⟨ip10_2⟩, net10_8⟩, ⟨⟨ip10_5⟩, net172⟩]⟩
    noLinkKernel noLinkKernel net10 ip10_1 (by decide)
  ⟨by decide, h.2.1⟩

/-- C17: `Add` never changes an existing resolution: whatever its outcome, the
table after `Add(N, H)` is the old one or the old one with the new route placed
after all its entries, which keep their positions, and for every address A that
some entry's network contained before the call `Get(A)` returns the same next
hop after the call as before. -/
theorem C17_add_keeps_resolutions (r : Routes) (k : netlink.Kernel) (N : net.IPNet)
    (H : net.IP) :
    ((r.Add k N H).routes.table = r.table
        ∨ (r.Add k N H).routes.table = r.table ++ [⟨⟨H⟩, N⟩])
      ∧ (r.Add k N H).routes.table.take r.table.length = r.table
      ∧ (∀ i, i < r.table.length → (r.Add k N H).routes.table[i]? = r.table[i]?)
      ∧ (∀ A, (∃ x ∈ r.table, net.IPNet.Contains x.NetworkID A = true) →
          ((r.Add k N H).routes.Get A).2 = (r.Get A).2) := by
  by_cases hh : r.holds N H
  · rw [Add_of_holds r k N H hh]
    exact ⟨Or.inl rfl, List.take_length _, fun _ _ => rfl, fun _ _ => rfl⟩
  · rw [Add_routes_of_not_holds r k N H hh]
    refine ⟨Or.inr rfl, List.take_left' rfl, ?_, ?_⟩
    · intro i hi
      exact List.getElem?_append_left hi
    · intro A hA
      exact Get_loop_append A r.table _ hA

/-- C18: `Delete` can change the resolution of an address the deleted route
does not cover: in the table [172.16.0.0/16 via 10.0.0.5, 10.0.0.0/24 via
10.0.0.1, 10.0.0.0/8 via 10.0.0.2] the address 10.0.0.5, which 172.16.0.0/16
does not contain, resolves to 10.0.0.1; after `Delete(172.16.0.0/16, 10.0.0.5)`
the last entry stands first and the address resolves to 10.0.0.2. -/
theorem C18_delete_changes_other_resolution :
    ∃ (r : Routes) (N : net.IPNet) (H A h1 h2 : net.IP),
      r.holds N H
        ∧ net.IPNet.Contains N A = false
        ∧ h1.isSome = true ∧ h2.isSome = true ∧ h1 ≠ h2
        ∧ (r.Get A).2 = h1
        ∧ ∀ k, ((r.Delete k N H).routes.Get A).2 = h2
            ∧ (r.Delete k N H).routes.table = swapRemove r.table 0 := by
  refine ⟨⟨[⟨⟨ip10_5⟩, net172⟩, ⟨⟨ip10_1⟩, net10⟩, ⟨⟨ip10_2⟩, net10_8⟩]⟩, net172, ip10_5,
    ip10_5, ip10_1, ip10_2, by decide, by decide, by decide, by decide, by decide, by decide, ?_⟩
  intro k
  have hr := Delete_routes_of_first
    ⟨[⟨⟨ip10_5⟩, net172⟩, ⟨⟨ip10_1⟩, net10⟩, ⟨⟨ip10_2⟩, net10_8⟩]⟩ k net172 ip10_5
    [] ⟨⟨ip10_5⟩, net172⟩ [⟨⟨ip10_1⟩, net10⟩, ⟨⟨ip10_2⟩, net10_8⟩] rfl
    (by intro w hw; cases hw) rfl (by decide)
  rw [hr]
  exact ⟨by decide, rfl⟩

/-- C19: the duplicate check of `Add` and the presence check of `Delete` decide
the same predicate: on every table and for every pair (N, H), whatever the
kernel answers, `Add(N, H)` fails with DuplicateRoute if and only if
`Delete(N, H)` does not fail with RouteNotFound, and both say that the table
holds the pair. -/
theorem C19_checks_agree (r : Routes) (k1 k2 : netlink.Kernel) (N : net.IPNet) (H : net.IP) :
    ((∃ msg, (r.Add k1 N H).err = some (.DuplicateRoute msg))
        ↔ ¬ ∃ msg, (r.Delete k2 N H).err = some (.RouteNotFound msg))
      ∧ ((∃ msg, (r.Add k1 N H).err = some (.DuplicateRoute msg)) ↔ r.holds N H)
      ∧ ((r.table.any (fun route =>
            net.IP.Equal H route.NextHop.IP
              && net.IPNet.String N == net.IPNet.String route.NetworkID) = true)
          ↔ (Delete.loop r.table N H r.table 0).isSome = true) := by
  have ha := Add_err_duplicate_iff r k1 N H
  have hd := Delete_err_not_found_iff r k2 N H
  refine ⟨?_, ha, ?_⟩
  · rw [ha, hd, not_not]
  · rw [Add_check_iff]
    constructor
    · intro hh
      obtain ⟨pre, v, post, ht, hpre, hs, he⟩ := holds_first N H r.table hh
      have hl := Delete_loop_some r.table N H pre v post 0 hpre hs he
      rw [← ht] at hl
      rw [hl]
      rfl
    · intro hsome
      by_contra hh
      rw [Delete_loop_none r.table N H r.table 0 (fun v hv hm => hh ⟨v, hv, hm.1, hm.2⟩)]
        at hsome
      cases hsome

end router
